import Mathlib

/-! # Page export settings, rasterizer and page-to-device transform of PdfForQt

A shallow embedding of the parts of `PdfForQtLib/sources/pdfrenderer.cpp`
that decide the page selection, the validation of export settings, the
output file names, the page-to-device matrix, the rasterizer and its pool.

Conventions of the embedding.

* `QString` and `QByteArray` are lists of characters (`QByteArray` values are
  ASCII format names such as `png`, on which Latin-1 and UTF-8 decoding agree).
* `PDFInteger` is a signed 64-bit integer, modelled by `Int`. The range matters
  where a decimal string is converted (`toLongLong` fails outside 64 bits). The
  only arithmetic on such values is `v - 1` and `pageIndex + 1`, which leave the
  range at one value only, where C++ leaves the behaviour undefined; there the
  model computes in the integers.
* `std::vector<PDFInteger>` is a `List Int`. `getPages` is the function for a
  vector that can always grow; `getPagesBounded` is the same function for a
  vector of at most `maxSize` elements, where `push_back` and `resize` throw
  beyond that size and nothing is returned.
* `QImage(size, format)` is the null image for an empty size and when its
  buffer cannot be allocated; whether the allocation succeeds is an input of
  `render`.
* `qreal` is modelled by exact rational arithmetic.
* The Qt library functions used by the source (`QString::split`,
  `QString::toLongLong`, `QString::replace`, `QString::number`,
  `QFileInfo::suffix`, `QMatrix`) are modelled from the documented behaviour
  of Qt 5.
-/

namespace pdf

/-! ## Qt strings -/

abbrev QString := List Char

/-- `QString::split(sep, Qt::KeepEmptyParts)`: the fields between the separators,
empty ones included; an empty string has the single field `[]`. -/
def splitKeepEmptyParts (sep : Char) : QString → List QString
  | [] => [[]]
  | c :: cs =>
    if c = sep then [] :: splitKeepEmptyParts sep cs
    else
      match splitKeepEmptyParts sep cs with
      | [] => [[c]]
      | p :: ps => (c :: p) :: ps

/-- `QString::split(sep, Qt::SkipEmptyParts)`: as above, without the empty fields. -/
def splitSkipEmptyParts (sep : Char) (s : QString) : List QString :=
  (splitKeepEmptyParts sep s).filter (fun p => !p.isEmpty)

/-- `QChar::isSpace`: the ASCII white space characters, NEL, NBSP and the
Unicode separator categories. -/
def isSpace (c : Char) : Bool :=
  let u := c.toNat
  u = 0x20 || (0x09 ≤ u && u ≤ 0x0D) || u = 0x85 || u = 0xA0 || u = 0x1680 ||
  (0x2000 ≤ u && u ≤ 0x200A) || u = 0x2028 || u = 0x2029 || u = 0x202F ||
  u = 0x205F || u = 0x3000

/-- `QString::trimmed`: white space removed from both ends. -/
def trimmed (s : QString) : QString :=
  ((s.dropWhile isSpace).reverse.dropWhile isSpace).reverse

/-- An ASCII decimal digit. -/
def isDigit (c : Char) : Bool := 48 ≤ c.toNat && c.toNat ≤ 57

/-- Positional value of a string of decimal digits. -/
def digitsValue (ds : QString) : Nat :=
  ds.foldl (fun acc c => 10 * acc + (c.toNat - 48)) 0

/-- A non-empty run of decimal digits, read as a natural number. -/
def parseDigits (ds : QString) : Option Nat :=
  if ds.isEmpty then none
  else if ds.all isDigit then some (digitsValue ds)
  else none

/-- An optional sign (`+`, `-` or U+2212) followed by decimal digits. -/
def parseSigned : QString → Option Int
  | [] => none
  | c :: cs =>
    if c = '+' then (parseDigits cs).map (fun (n : Nat) => (n : Int))
    else if c = '-' ∨ c.toNat = 0x2212 then (parseDigits cs).map (fun (n : Nat) => -(n : Int))
    else (parseDigits (c :: cs)).map (fun (n : Nat) => (n : Int))

/-- `QString::toLongLong(&ok)` in base 10: the value and the `ok` flag. The
conversion ignores surrounding white space, accepts one sign, and fails (value
`0`, `ok = false`) on anything else or when the number does not fit 64 bits. -/
def toLongLong (s : QString) : Int × Bool :=
  match parseSigned (trimmed s) with
  | none => (0, false)
  | some v => if -2 ^ 63 ≤ v ∧ v ≤ 2 ^ 63 - 1 then (v, true) else (0, false)

/-- `QString::number(n)` for a `qlonglong`: decimal digits, with a leading `-`
for negative values. -/
def number (n : Int) : QString :=
  match n with
  | Int.ofNat k => (Nat.toDigits 10 k)
  | Int.negSucc k => '-' :: Nat.toDigits 10 (k + 1)

/-- `QString::replace(QChar before, const QString& after)`: every occurrence of
the character is replaced. -/
def replace (before : Char) (after : QString) : QString → QString
  | [] => []
  | c :: cs => if c = before then after ++ replace before after cs else c :: replace before after cs

/-! ## Page selection -/

inductive ResolutionMode
  | DPI
  | Pixels
  deriving DecidableEq, Repr

inductive PageSelectionMode
  | All
  | Selection
  deriving DecidableEq, Repr

/-- The part of `PDFDocument` the export settings read: the page count of the catalog. -/
structure PDFDocument where
  pageCount : Nat
  deriving DecidableEq, Repr

structure PDFPageImageExportSettings where
  m_document : PDFDocument
  m_resolutionMode : ResolutionMode
  m_pageSelectionMode : PageSelectionMode
  m_directory : QString
  m_fileTemplate : QString
  m_pageSelection : QString
  m_dpiResolution : Int
  m_pixelResolution : Int
  deriving DecidableEq, Repr

/-- `std::iota` over `count` fresh slots: `low, low + 1, ..., low + count - 1`. -/
def iota (count : Nat) (low : Int) : List Int :=
  (List.range count).map (fun (i : Nat) => low + (i : Int))

/-- `qSort(result)`: ascending order. -/
def qSort (l : List Int) : List Int := l.insertionSort (· ≤ ·)

/-- `result.erase(std::unique(...), result.end())`: of every run of equal
adjacent values only the first is kept. -/
def unique : List Int → List Int
  | [] => []
  | [a] => [a]
  | a :: b :: l => if a = b then unique (b :: l) else a :: unique (b :: l)

/-- The `switch (numbers.size())` of `getPages` for one comma-separated part:
the vector after the part and the `ok` flag. -/
def parsePart (part : QString) (result : List Int) : List Int × Bool :=
  match splitKeepEmptyParts '-' part with
  | [numberString] =>
    let r := toLongLong numberString
    (result ++ [r.1 - 1], r.2)
  | [lowString, highString] =>
    let r1 := toLongLong lowString
    let r2 := toLongLong highString
    let low := r1.1 - 1
    let high := r2.1 - 1
    let ok := r1.2 && r2.2 && decide (low ≤ high) && decide (low ≥ 0)
    if ok then (result ++ iota (high - low + 1).toNat low, true)
    else (result, false)
  | _ => (result, true)

/-- The `for (const QString& part : parts)` loop of `getPages`, with its
`break` on the first part that leaves `ok` false. -/
def getPagesLoop : List QString → List Int → Bool → List Int × Bool
  | [], result, ok => (result, ok)
  | part :: parts, result, _ =>
    let r := parsePart part result
    if !r.2 then (r.1, false)
    else getPagesLoop parts (unique (qSort r.1)) true

/-- `PDFPageImageExportSettings::getPages`. -/
def PDFPageImageExportSettings.getPages (s : PDFPageImageExportSettings) : List Int :=
  match s.m_pageSelectionMode with
  | PageSelectionMode.All => iota s.m_document.pageCount 0
  | PageSelectionMode.Selection =>
    let parts := splitSkipEmptyParts ',' s.m_pageSelection
    let r := getPagesLoop parts [] false
    if !r.2 then [] else r.1

/-! ### The result vector with a bound on its size

`push_back` and `resize` throw (`std::length_error`, `std::bad_alloc`) when
the vector cannot grow to the size asked for, and `getPages` then returns
nothing. In the definitions below `maxSize` is the largest size to which the
vector can grow on the host: `push_back` and `resize` succeed up to it and throw
beyond it, and `none` stands for the exception. `getPages` above is the same
function for a vector that can always grow. -/

/-- The `switch (numbers.size())` of `getPages` for one part, `push_back` and
`resize` throwing when the new size exceeds `maxSize`. The new size
`result.size() + count` is computed in `size_t`: were the sum to wrap, the
vector would shrink and `std::prev(result.end(), count)` would leave it, which
has no defined result (none). -/
def parsePartBounded (maxSize : Nat) (part : QString) (result : List Int) :
    Option (List Int × Bool) :=
  match splitKeepEmptyParts '-' part with
  | [numberString] =>
    let r := toLongLong numberString
    if result.length + 1 ≤ maxSize then some (result ++ [r.1 - 1], r.2) else none
  | [lowString, highString] =>
    let r1 := toLongLong lowString
    let r2 := toLongLong highString
    let low := r1.1 - 1
    let high := r2.1 - 1
    let ok := r1.2 && r2.2 && decide (low ≤ high) && decide (low ≥ 0)
    if ok then
      if result.length + (high - low + 1).toNat < 2 ^ 64 ∧
          result.length + (high - low + 1).toNat ≤ maxSize then
        some (result ++ iota (high - low + 1).toNat low, true)
      else none
    else some (result, false)
  | _ => some (result, true)

/-- The loop of `getPages` over the parts, an exception of a part ending it. -/
def getPagesLoopBounded (maxSize : Nat) :
    List QString → List Int → Bool → Option (List Int × Bool)
  | [], result, ok => some (result, ok)
  | part :: parts, result, _ =>
    match parsePartBounded maxSize part result with
    | none => none
    | some r =>
      if !r.2 then some (r.1, false)
      else getPagesLoopBounded maxSize parts (unique (qSort r.1)) true

/-- `PDFPageImageExportSettings::getPages` with a result vector that holds at
most `maxSize` elements: none when `resize` or `push_back` throws. -/
def PDFPageImageExportSettings.getPagesBounded (maxSize : Nat)
    (s : PDFPageImageExportSettings) : Option (List Int) :=
  match s.m_pageSelectionMode with
  | PageSelectionMode.All =>
    if s.m_document.pageCount ≤ maxSize then some (iota s.m_document.pageCount 0) else none
  | PageSelectionMode.Selection =>
    let parts := splitSkipEmptyParts ',' s.m_pageSelection
    match getPagesLoopBounded maxSize parts [] false with
    | none => none
    | some r => some (if !r.2 then [] else r.1)

/-! ## Validation of the export settings -/

/-- What `validate` and `getOutputFileName` read from the host: whether a
directory exists (`QDir::exists`) and the native path separator. -/
structure Host where
  directoryExists : QString → Bool
  nativeSeparator : Char

/-- The bounds `getMinDPIResolution`, `getMaxDPIResolution`,
`getMinPixelResolution` and `getMaxPixelResolution` of the class declaration. -/
structure ResolutionLimits where
  minDPIResolution : Int
  maxDPIResolution : Int
  minPixelResolution : Int
  maxPixelResolution : Int

/-- `PDFPageImageExportSettings::validate`: the returned flag and the error
message written through `errorMessagePtr` (none when nothing is written). -/
def PDFPageImageExportSettings.validate (host : Host) (lim : ResolutionLimits)
    (s : PDFPageImageExportSettings) : Bool × Option QString :=
  if s.m_directory.isEmpty then
    (false, some "Target directory is empty.".toList)
  else if !host.directoryExists s.m_directory then
    (false, some ("Target directory \x27".toList ++ s.m_directory ++ "\x27 doesn\x27t exist.".toList))
  else if s.m_fileTemplate.isEmpty then
    (false, some "File template is empty.".toList)
  else if !s.m_fileTemplate.contains '%' then
    (false, some "File template must contain character \x27%\x27 for page number.".toList)
  else
    let selectionError : Option QString :=
      if s.m_pageSelectionMode = PageSelectionMode.Selection then
        let pages := s.getPages
        if pages.isEmpty then
          some "Page list is invalid. It should have form such as \x271-12,17,24,27-29\x27.".toList
        else if pages.getLastD 0 ≥ (s.m_document.pageCount : Int) then
          some ("Page list contains page, which is not in the document (".toList ++
            number (pages.getLastD 0) ++ ").".toList)
        else none
      else none
    match selectionError with
    | some message => (false, some message)
    | none =>
      if s.m_resolutionMode = ResolutionMode.DPI ∧
          (s.m_dpiResolution < lim.minDPIResolution ∨ s.m_dpiResolution > lim.maxDPIResolution) then
        (false, some ("DPI resolution should be in range ".toList ++ number lim.minDPIResolution ++
          " to ".toList ++ number lim.maxDPIResolution ++ ".".toList))
      else if s.m_resolutionMode = ResolutionMode.Pixels ∧
          (s.m_pixelResolution < lim.minPixelResolution ∨
            s.m_pixelResolution > lim.maxPixelResolution) then
        (false, some ("Pixel resolution should be in range ".toList ++
          number lim.minPixelResolution ++ " to ".toList ++ number lim.maxPixelResolution ++
          ".".toList))
      else (true, none)

/-! ## Output file names -/

/-- The text after the last occurrence of `sep`, or the whole text when there is none. -/
def afterLast (sep : Char) (s : QString) : QString :=
  ((s.reverse).takeWhile (fun c => c != sep)).reverse

/-- `QFileInfo(fileName).suffix()`: the characters after the last `.` of the
file name, which is what follows the last `/` of the path; empty when the file
name has no `.`. -/
def suffix (path : QString) : QString :=
  let fileName := afterLast '/' path
  if fileName.contains '.' then afterLast '.' fileName else []

/-- `QDir::toNativeSeparators`: every `/` becomes the native separator. -/
def toNativeSeparators (host : Host) (s : QString) : QString :=
  s.map (fun c => if c = '/' then host.nativeSeparator else c)

/-- `QDir::fromNativeSeparators`, applied by `QFileInfo` to its path. -/
def fromNativeSeparators (host : Host) (s : QString) : QString :=
  s.map (fun c => if c = host.nativeSeparator then '/' else c)

/-- The file name of `getOutputFileName` before the directory is added: the
template after `replace`, with the format appended when the suffix differs. -/
def PDFPageImageExportSettings.outputName (host : Host) (s : PDFPageImageExportSettings)
    (pageIndex : Int) (outputFormat : QString) : QString :=
  let fileName := replace '%' (number (pageIndex + 1)) s.m_fileTemplate
  if suffix (fromNativeSeparators host fileName) ≠ outputFormat then
    fileName ++ '.' :: outputFormat
  else fileName

/-- `PDFPageImageExportSettings::getOutputFileName`. -/
def PDFPageImageExportSettings.getOutputFileName (host : Host) (s : PDFPageImageExportSettings)
    (pageIndex : Int) (outputFormat : QString) : QString :=
  let fileName := s.outputName host pageIndex outputFormat
  let fileNameWithDirectory := s.m_directory ++ '/' :: fileName
  toNativeSeparators host fileNameWithDirectory

/-! ## Page point to device point matrix -/

inductive PageRotation
  | None
  | Rotate90
  | Rotate180
  | Rotate270
  deriving DecidableEq, Repr

structure QRectF where
  x : ℚ
  y : ℚ
  w : ℚ
  h : ℚ
  deriving DecidableEq

def QRectF.left (r : QRectF) : ℚ := r.x
def QRectF.top (r : QRectF) : ℚ := r.y
def QRectF.right (r : QRectF) : ℚ := r.x + r.w
def QRectF.bottom (r : QRectF) : ℚ := r.y + r.h
def QRectF.width (r : QRectF) : ℚ := r.w
def QRectF.height (r : QRectF) : ℚ := r.h

/-- What the matrix derivation reads from a `PDFPage`. -/
structure PDFPage where
  pageRotation : PageRotation
  rotatedMediaBox : QRectF
  deriving DecidableEq

/-- `QMatrix`: the affine map `(x, y) ↦ (m11 x + m21 y + dx, m12 x + m22 y + dy)`. -/
structure QMatrix where
  m11 : ℚ
  m12 : ℚ
  m21 : ℚ
  m22 : ℚ
  dx : ℚ
  dy : ℚ
  deriving DecidableEq

/-- The default constructed `QMatrix`: the identity. -/
def QMatrix.identity : QMatrix := ⟨1, 0, 0, 1, 0, 0⟩

/-- `QMatrix::translate`. -/
def QMatrix.translate (m : QMatrix) (dx dy : ℚ) : QMatrix :=
  { m with dx := m.dx + (dx * m.m11 + dy * m.m21), dy := m.dy + (dy * m.m22 + dx * m.m12) }

/-- `QMatrix::scale`. -/
def QMatrix.scale (m : QMatrix) (sx sy : ℚ) : QMatrix :=
  { m with m11 := m.m11 * sx, m12 := m.m12 * sx, m21 := m.m21 * sy, m22 := m.m22 * sy }

/-- `QMatrix::rotate(a)` for an angle in degrees. Qt sets the sine and cosine
exactly for `90`, `-270`, `270`, `-90` and `180`; these, and `0`, are the angles
of the model (the source passes `90` and `-90` only), any other angle being
read as `0`. -/
def QMatrix.rotate (m : QMatrix) (a : Int) : QMatrix :=
  let sina : ℚ := if a = 90 ∨ a = -270 then 1 else if a = 270 ∨ a = -90 then -1 else 0
  let cosa : ℚ :=
    if a = 90 ∨ a = -270 then 0 else if a = 270 ∨ a = -90 then 0 else if a = 180 then -1 else 1
  { m with
    m11 := cosa * m.m11 + sina * m.m21
    m12 := cosa * m.m12 + sina * m.m22
    m21 := -sina * m.m11 + cosa * m.m21
    m22 := -sina * m.m12 + cosa * m.m22 }

/-- `QMatrix::map(QPointF)`. -/
def QMatrix.map (m : QMatrix) (p : ℚ × ℚ) : ℚ × ℚ :=
  (m.m11 * p.1 + m.m21 * p.2 + m.dx, m.m22 * p.2 + m.m12 * p.1 + m.dy)

/-- `PDFRenderer::createPagePointToDevicePointMatrix`. -/
def createPagePointToDevicePointMatrix (page : PDFPage) (rectangle : QRectF) : QMatrix :=
  let mediaBox := page.rotatedMediaBox
  let matrix := QMatrix.identity
  match page.pageRotation with
  | PageRotation.None =>
    (matrix.translate rectangle.left rectangle.bottom).scale
      (rectangle.width / mediaBox.width) (-rectangle.height / mediaBox.height)
  | PageRotation.Rotate90 =>
    ((matrix.translate rectangle.left rectangle.top).rotate 90).scale
      (rectangle.width / mediaBox.width) (-rectangle.height / mediaBox.height)
  | PageRotation.Rotate270 =>
    ((((matrix.translate rectangle.right rectangle.top).rotate (-90)).translate
      (-rectangle.height) 0)).scale
      (rectangle.width / mediaBox.width) (-rectangle.height / mediaBox.height)
  | PageRotation.Rotate180 =>
    (matrix.translate rectangle.left rectangle.top).scale
      (rectangle.width / mediaBox.width) (rectangle.height / mediaBox.height)

/-- The four corners of a rectangle: top left, top right, bottom left, bottom right. -/
def QRectF.corners (r : QRectF) : List (ℚ × ℚ) :=
  [(r.left, r.top), (r.right, r.top), (r.left, r.bottom), (r.right, r.bottom)]

/-- The corners `(0,0)`, `(mw,0)`, `(0,mh)`, `(mw,mh)` of the logical box of a page. -/
def PDFPage.boxCorners (page : PDFPage) : List (ℚ × ℚ) :=
  [(0, 0), (page.rotatedMediaBox.width, 0), (0, page.rotatedMediaBox.height),
    (page.rotatedMediaBox.width, page.rotatedMediaBox.height)]

/-! ## Rasterizer

The OpenGL objects are outside the program; what their calls return is given
to the model as an outcome. A pointer is modelled by whether it is non-null. A
call through a null pointer has no defined result: the functions return `none`
there. -/

/-- The flags of `m_features` that the rasterizer reads and writes. -/
structure RasterizerFeatures where
  UseOpenGL : Bool
  ValidOpenGL : Bool
  FailedOpenGL : Bool
  deriving DecidableEq, Repr

/-- `QSurfaceFormat`: the sample count and the remaining settings. -/
structure QSurfaceFormat where
  samples : Int
  settings : Nat
  deriving DecidableEq, Repr

/-- The state of a `PDFRasterizer`: flags, surface format, whether `m_surface`
and `m_context` are non-null, and the size of `m_fbo` when it is non-null. -/
structure PDFRasterizer where
  m_features : RasterizerFeatures
  m_surfaceFormat : QSurfaceFormat
  m_surface : Bool
  m_context : Bool
  m_fbo : Option (Int × Int)
  deriving DecidableEq, Repr

/-- `PDFRasterizer::PDFRasterizer`: no flag set, default format, null pointers. -/
def PDFRasterizer.create : PDFRasterizer :=
  ⟨⟨false, false, false⟩, ⟨-1, 0⟩, false, false, none⟩

/-- What the OpenGL calls of `initializeOpenGL` return: `m_context->create()`,
`m_surface->isValid()` and `m_context->makeCurrent(m_surface)`. -/
structure InitializeOutcome where
  contextCreated : Bool
  surfaceValid : Bool
  madeCurrent : Bool
  deriving DecidableEq, Repr

/-- `PDFRasterizer::releaseOpenGL`. With a surface, a framebuffer and a null
context the call `m_context->makeCurrent` goes through a null pointer. -/
def PDFRasterizer.releaseOpenGL (s : PDFRasterizer) : Option PDFRasterizer :=
  if s.m_surface then
    if s.m_fbo.isSome ∧ s.m_context = false then none
    else
      some { s with
        m_fbo := none
        m_context := false
        m_surface := false
        m_features := { s.m_features with ValidOpenGL := false } }
  else some s

/-- `PDFRasterizer::initializeOpenGL`. After the creation of the context and
of the surface, `m_context->makeCurrent(m_surface)` is called whatever happened
before: through a null pointer when one of the two creations failed. -/
def PDFRasterizer.initializeOpenGL (s : PDFRasterizer) (o : InitializeOutcome) :
    Option PDFRasterizer :=
  let s0 := { s with
    m_features := { s.m_features with ValidOpenGL := false, FailedOpenGL := false } }
  let s1 := { s0 with m_context := true }
  let s2 :=
    if !o.contextCreated then
      { s1 with m_features := { s1.m_features with FailedOpenGL := true }, m_context := false }
    else s1
  let s3 := { s2 with m_surface := true }
  let s4 :=
    if !o.surfaceValid then
      { s3 with
        m_features := { s3.m_features with FailedOpenGL := true }
        m_context := false
        m_surface := false }
    else s3
  if s4.m_context = false then none
  else if o.madeCurrent then
    some { s4 with m_features := { s4.m_features with ValidOpenGL := true } }
  else
    PDFRasterizer.releaseOpenGL
      { s4 with m_features := { s4.m_features with FailedOpenGL := true } }

/-- `PDFRasterizer::reset`. -/
def PDFRasterizer.reset (s : PDFRasterizer) (useOpenGL : Bool) (surfaceFormat : QSurfaceFormat)
    (o : InitializeOutcome) : Option PDFRasterizer :=
  if useOpenGL ≠ s.m_features.UseOpenGL ∨ surfaceFormat ≠ s.m_surfaceFormat then
    match s.releaseOpenGL with
    | none => none
    | some s1 =>
      let s2 := { s1 with
        m_features := { s1.m_features with UseOpenGL := useOpenGL }
        m_surfaceFormat := surfaceFormat }
      if s2.m_features.UseOpenGL = true ∧ s2.m_features.FailedOpenGL = false then
        s2.initializeOpenGL o
      else some s2
  else some s

inductive RenderErrorType
  | Error
  | NotImplemented
  | Information
  deriving DecidableEq, Repr

structure PDFRenderError where
  type : RenderErrorType
  message : QString
  deriving DecidableEq, Repr

/-- What the rasterizer and the pool read from a `PDFPrecompiledPage`: the
paper color, the compilation time, the errors and the (opaque) drawing program. -/
structure PDFPrecompiledPage where
  paperColor : Nat
  compilingTimeNS : Int
  errors : List PDFRenderError
  program : Nat
  deriving DecidableEq

inductive ImageFormat
  | Format_Invalid
  | Format_RGB32
  | Format_ARGB32
  | Format_ARGB32_Premultiplied
  | Format_RGBA8888
  | Format_RGBA8888_Premultiplied
  deriving DecidableEq, Repr

/-- The paint calls the rasterizer issues on its target. -/
inductive PaintOp
  | fillRect (width height : Int) (color : Nat)
  | fill (color : Nat)
  | draw (compiledPage : PDFPrecompiledPage) (cropBox : QRectF) (matrix : QMatrix) (features : Nat)
  | drawPage (pageIndex : Int) (compiledPage : PDFPrecompiledPage) (matrix : QMatrix)
  deriving DecidableEq

/-- The data of a non-null image: its size, its format and what was painted. -/
structure ImageData where
  width : Int
  height : Int
  format : ImageFormat
  painted : List PaintOp
  deriving DecidableEq

/-- `QImage`: `none` is the null image. -/
abbrev QImage := Option ImageData

/-- `Qt::white`. -/
def white : Nat := 0xffffffff

/-- `QImage(size, format)`: the null image when the size is empty, and also
when the memory of the buffer cannot be allocated; `allocated` tells whether the
allocation succeeds. -/
def QImage.ofSize (size : Int × Int) (format : ImageFormat) (allocated : Bool) : QImage :=
  if size.1 ≤ 0 ∨ size.2 ≤ 0 ∨ allocated = false then none
  else some ⟨size.1, size.2, format, []⟩

/-- `QImage::format`: `Format_Invalid` for the null image. -/
def QImage.format (image : QImage) : ImageFormat :=
  match image with
  | none => ImageFormat.Format_Invalid
  | some d => d.format

/-- `QImage::convertTo`: nothing happens to the null image. -/
def QImage.convertTo (image : QImage) (format : ImageFormat) : QImage :=
  image.map (fun d => { d with format := format })

/-- Painting on an image: nothing happens to the null image. -/
def QImage.paint (image : QImage) (ops : List PaintOp) : QImage :=
  image.map (fun d => { d with painted := d.painted ++ ops })

/-- What the calls of `render` into Qt return: `m_context->makeCurrent`,
`m_fbo->isValid()`, `m_fbo->bind()`, the format of `m_fbo->toImage()` (none
for a null image), and whether the buffer of the software image
`QImage(size, Format_ARGB32_Premultiplied)` can be allocated. -/
structure RenderOutcome where
  madeCurrent : Bool
  fboValid : Bool
  fboBound : Bool
  readBack : Option ImageFormat
  imageAllocated : Bool
  deriving DecidableEq, Repr

/-- The calls `compiledPage->draw` and, with an annotation manager,
`annotationManager->drawPage`, common to both paths of `render`. -/
def drawCalls (pageIndex : Int) (cropBox : QRectF) (compiledPage : PDFPrecompiledPage)
    (matrix : QMatrix) (features : Nat) (annotationManager : Bool) : List PaintOp :=
  PaintOp.draw compiledPage cropBox matrix features ::
    (if annotationManager then [PaintOp.drawPage pageIndex compiledPage matrix] else [])

/-- The framebuffer object is replaced when there is none or when its size
differs from the requested one. -/
def PDFRasterizer.ensureFramebuffer (s : PDFRasterizer) (size : Int × Int) : PDFRasterizer :=
  match s.m_fbo with
  | none => { s with m_fbo := some size }
  | some (w, h) => if w ≠ size.1 ∨ h ≠ size.2 then { s with m_fbo := some size } else s

/-- The OpenGL block of `render`: the state after it and the image read back
from the framebuffer (the null image when the block does not produce one). -/
def PDFRasterizer.renderOpenGL (s : PDFRasterizer) (compiledPage : PDFPrecompiledPage)
    (size : Int × Int) (calls : List PaintOp) (o : RenderOutcome) :
    Option (PDFRasterizer × QImage) :=
  if s.m_features.UseOpenGL = true ∧ s.m_features.ValidOpenGL = true then
    if s.m_context = false then none
    else if o.madeCurrent then
      let s1 := s.ensureFramebuffer size
      if o.fboValid && o.fboBound then
        let pass := PaintOp.fillRect size.1 size.2 compiledPage.paperColor :: calls
        some (s1, o.readBack.map (fun format => ⟨size.1, size.2, format, pass ++ pass⟩))
      else
        some ({ s1 with
          m_features := { s1.m_features with FailedOpenGL := true, ValidOpenGL := false } },
          none)
    else some (s, none)
  else some (s, none)

/-- The software block of `render`, entered when the image is null. -/
def softwareFallback (size : Int × Int) (calls : List PaintOp) (allocated : Bool)
    (image : QImage) : QImage :=
  if image.isNone then
    ((QImage.ofSize size ImageFormat.Format_ARGB32_Premultiplied allocated).paint
      [PaintOp.fill white]).paint calls
  else image

/-- The final conversion of `render`. -/
def toPremultiplied (image : QImage) : QImage :=
  if QImage.format image ≠ ImageFormat.Format_ARGB32_Premultiplied then
    QImage.convertTo image ImageFormat.Format_ARGB32_Premultiplied
  else image

/-- `PDFRasterizer::render`: the state after the call and the returned image.
The crop box is what the call reads from the page besides the matrix. -/
def PDFRasterizer.render (s : PDFRasterizer) (pageIndex : Int) (page : PDFPage)
    (cropBox : QRectF) (compiledPage : PDFPrecompiledPage) (size : Int × Int) (features : Nat)
    (annotationManager : Bool) (o : RenderOutcome) : Option (PDFRasterizer × QImage) :=
  let matrix := createPagePointToDevicePointMatrix page ⟨0, 0, size.1, size.2⟩
  let calls := drawCalls pageIndex cropBox compiledPage matrix features annotationManager
  match s.renderOpenGL compiledPage size calls o with
  | none => none
  | some (s2, image) =>
    some (s2, toPremultiplied (softwareFallback size calls o.imageAllocated image))

/-- A call on a rasterizer, with the outcome of its OpenGL calls. -/
inductive RasterizerCall
  | reset (useOpenGL : Bool) (surfaceFormat : QSurfaceFormat) (o : InitializeOutcome)
  | render (pageIndex : Int) (page : PDFPage) (cropBox : QRectF)
      (compiledPage : PDFPrecompiledPage) (size : Int × Int) (features : Nat)
      (annotationManager : Bool) (o : RenderOutcome)

/-- The state after one call. -/
def PDFRasterizer.call (s : PDFRasterizer) : RasterizerCall → Option PDFRasterizer
  | RasterizerCall.reset useOpenGL surfaceFormat o => s.reset useOpenGL surfaceFormat o
  | RasterizerCall.render pageIndex page cropBox compiledPage size features annotationManager o =>
    (s.render pageIndex page cropBox compiledPage size features annotationManager o).map
      (fun r => r.1)

/-- The state after a sequence of calls. -/
def PDFRasterizer.run (s : PDFRasterizer) : List RasterizerCall → Option PDFRasterizer
  | [] => some s
  | c :: cs =>
    match s.call c with
    | none => none
    | some s1 => s1.run cs

/-- A compiled page with white paper and no error, for the examples. -/
def blankCompiledPage : PDFPrecompiledPage := ⟨0xffffffff, 0, [], 0⟩

/-- An unrotated page with a box of 3 by 5, for the examples. -/
def smallPage : PDFPage := ⟨PageRotation.None, ⟨0, 0, 3, 5⟩⟩

/-- The rasterizer after a successful `reset`: the Valid state. -/
def validRasterizer : PDFRasterizer :=
  ⟨⟨true, true, false⟩, ⟨4, 1⟩, true, true, none⟩

/-! ## Rasterizer pool: acquire and release

The pool is shared by threads. Its state is the count of `m_semaphore`, the
vector `m_rasterizers` of idle rasterizers (named by numbers) and, for every
thread, where it stands in `acquire` or `release`. `m_mutex` is held by a thread
that has appended its rasterizer and has not yet released the semaphore; the
removal in `acquire` is one critical section. -/

/-- Where a thread stands: outside `acquire` and `release` and without a
rasterizer; past `m_semaphore.acquire()` and before the removal; holding a
rasterizer; or in `release`, past `push_back` and before `m_semaphore.release()`. -/
inductive PoolThread
  | outside
  | passedSemaphore
  | holding (rasterizer : Nat)
  | pushedBack (rasterizer : Nat)
  deriving DecidableEq, Repr

structure PDFRasterizerPool where
  m_semaphore : Int
  m_rasterizers : List Nat
  threads : List PoolThread
  deriving DecidableEq, Repr

/-- `PDFRasterizerPool::PDFRasterizerPool`: the semaphore holds `rasterizerCount`
and as many rasterizers are pushed; no thread has entered `acquire`. -/
def PDFRasterizerPool.create (rasterizerCount threadCount : Nat) : PDFRasterizerPool :=
  ⟨rasterizerCount, List.range rasterizerCount, List.replicate threadCount PoolThread.outside⟩

/-- The atomic steps of `acquire` and `release`, with the thread taking them. -/
inductive PoolStep
  | semaphoreAcquire (thread : Nat)
  | popBack (thread : Nat)
  | pushBack (thread : Nat)
  | semaphoreRelease (thread : Nat)
  deriving DecidableEq, Repr

/-- Whether `m_mutex` is free: no thread is between `push_back` and the end of `release`. -/
def PDFRasterizerPool.mutexFree (pool : PDFRasterizerPool) : Bool :=
  pool.threads.all (fun th =>
    match th with
    | PoolThread.pushedBack _ => false
    | _ => true)

/-- One atomic step; `none` when the thread cannot take it in this state.
`semaphoreAcquire` waits for a positive count; `popBack` and `pushBack` wait
for the mutex; `popBack` on an empty vector is the failed assertion of `acquire`. -/
def PDFRasterizerPool.step (pool : PDFRasterizerPool) : PoolStep → Option PDFRasterizerPool
  | PoolStep.semaphoreAcquire t =>
    if pool.threads[t]? = some PoolThread.outside ∧ 0 < pool.m_semaphore then
      some { pool with
        m_semaphore := pool.m_semaphore - 1
        threads := pool.threads.set t PoolThread.passedSemaphore }
    else none
  | PoolStep.popBack t =>
    if pool.threads[t]? = some PoolThread.passedSemaphore ∧ pool.mutexFree = true then
      match pool.m_rasterizers.getLast? with
      | none => none
      | some rasterizer =>
        some { pool with
          m_rasterizers := pool.m_rasterizers.dropLast
          threads := pool.threads.set t (PoolThread.holding rasterizer) }
    else none
  | PoolStep.pushBack t =>
    match pool.threads[t]? with
    | some (PoolThread.holding rasterizer) =>
      if pool.mutexFree = true then
        some { pool with
          m_rasterizers := pool.m_rasterizers ++ [rasterizer]
          threads := pool.threads.set t (PoolThread.pushedBack rasterizer) }
      else none
    | _ => none
  | PoolStep.semaphoreRelease t =>
    match pool.threads[t]? with
    | some (PoolThread.pushedBack _) =>
      some { pool with
        m_semaphore := pool.m_semaphore + 1
        threads := pool.threads.set t PoolThread.outside }
    | _ => none

/-- The state after an interleaving of atomic steps. -/
def PDFRasterizerPool.run (pool : PDFRasterizerPool) : List PoolStep → Option PDFRasterizerPool
  | [] => some pool
  | st :: sts =>
    match pool.step st with
    | none => none
    | some pool1 => pool1.run sts

/-- A thread past the semaphore and before the removal counts 1. -/
def PoolThread.waiting : PoolThread → Nat
  | PoolThread.passedSemaphore => 1
  | _ => 0

/-- A thread holding a rasterizer counts 1. -/
def PoolThread.held : PoolThread → Nat
  | PoolThread.holding _ => 1
  | _ => 0

/-- A thread between `push_back` and `m_semaphore.release()` counts 1. -/
def PoolThread.pushing : PoolThread → Nat
  | PoolThread.pushedBack _ => 1
  | _ => 0

/-- The number of rasterizers currently acquired. -/
def PDFRasterizerPool.acquiredCount (pool : PDFRasterizerPool) : Nat :=
  (pool.threads.map PoolThread.held).sum

/-! ## Rasterizer pool: batch render -/

/-- What the batch render reads from its surroundings: the page of an index
(`getCatalog()->getPage`, none for a missing page), the errors that
`renderer.compile` records for a page, the image that the acquired rasterizer
returns for a page, whether a progress object is given, and the clock. -/
structure PoolEnvironment where
  getPage : Int → Option PDFPage
  compiledErrors : Int → List PDFRenderError
  renderedImage : Int → QImage
  progress : Bool
  startTime : QString
  finishTime : QString
  elapsedMilliseconds : Int

/-- What the batch render does to its surroundings: the signal `renderError`,
the calls on the progress object, the calls of `acquire` and `release` on the
pool and the calls of `processImage`. -/
inductive PoolEvent
  | renderError (error : PDFRenderError)
  | progressStart (count : Nat)
  | progressStep
  | progressFinish
  | acquire
  | release
  | processImage (pageIndex : Int) (image : QImage)
  deriving DecidableEq

/-- The lambda `processPage` of `PDFRasterizerPool::render`. -/
def processPage (env : PoolEnvironment) (pageIndex : Int) : List PoolEvent :=
  match env.getPage pageIndex with
  | none =>
    (if env.progress then [PoolEvent.progressStep] else []) ++
      [PoolEvent.renderError ⟨RenderErrorType.Error,
        "Page ".toList ++ number pageIndex ++ " not found.".toList⟩]
  | some _ =>
    (env.compiledErrors pageIndex).map (fun error =>
        PoolEvent.renderError ⟨error.type,
          "Page ".toList ++ number (pageIndex + 1) ++ ": ".toList ++ error.message⟩) ++
      [PoolEvent.acquire, PoolEvent.release,
        PoolEvent.processImage pageIndex (env.renderedImage pageIndex)] ++
      (if env.progress then [PoolEvent.progressStep] else [])

/-- `PDFRasterizerPool::render`: the events of the batch, the pages being
processed one after the other (an execution in parallel interleaves the events
of different pages). -/
def PDFRasterizerPool.render (env : PoolEnvironment) (pageIndices : List Int) : List PoolEvent :=
  if pageIndices.isEmpty then []
  else
    [PoolEvent.renderError ⟨RenderErrorType.Information,
        "Start at ".toList ++ env.startTime ++ "...".toList⟩] ++
      (if env.progress then [PoolEvent.progressStart pageIndices.length] else []) ++
      pageIndices.flatMap (processPage env) ++
      (if env.progress then [PoolEvent.progressFinish] else []) ++
      [PoolEvent.renderError ⟨RenderErrorType.Information,
        "Finished at ".toList ++ env.finishTime ++ "...".toList⟩,
       PoolEvent.renderError ⟨RenderErrorType.Information,
        number env.elapsedMilliseconds ++ " miliseconds elapsed to render ".toList ++
          number pageIndices.length ++ " pages...".toList⟩]

/-- The number of calls of `processImage` that carry the page index `i`. -/
def imageCallbacks (i : Int) (trace : List PoolEvent) : Nat :=
  trace.countP (fun e =>
    match e with
    | PoolEvent.processImage k _ => decide (k = i)
    | _ => false)

/-- The number of `renderError` events of type Error. -/
def errorEvents (trace : List PoolEvent) : Nat :=
  trace.countP (fun e =>
    match e with
    | PoolEvent.renderError error => decide (error.type = RenderErrorType.Error)
    | _ => false)

/-- A document of three pages, the page of index 5 missing, for the examples. -/
def exampleEnvironment : PoolEnvironment :=
  { getPage := fun i => if 0 ≤ i ∧ i < 3 then some smallPage else none
    compiledErrors := fun i =>
      if i = 1 then [⟨RenderErrorType.NotImplemented, "Shading".toList⟩] else []
    renderedImage := fun _ =>
      QImage.ofSize (30, 50) ImageFormat.Format_ARGB32_Premultiplied true
    progress := true
    startTime := "10:00:00".toList
    finishTime := "10:00:01".toList
    elapsedMilliseconds := 1000 }

/-! ## Renderer -/

/-- What the renderer reads from the catalog of the document: the page count
and the page of an index (none for a null pointer). -/
structure PDFCatalog where
  pageCount : Nat
  getPage : Nat → Option PDFPage

/-- The content stream processors, which are outside the program: the errors
`PDFPainter::processContents` returns for a page and a matrix; what
`PDFPrecompiledPageGenerator::processContents` makes of the compiled page and
the errors it returns; `invertColors` and `optimize` of the compiled page; and
the nanoseconds the timer shows at the end of a compilation. -/
structure ContentProcessor where
  painterErrors : PDFPage → QMatrix → List PDFRenderError
  generate : PDFPage → PDFPrecompiledPage → PDFPrecompiledPage × List PDFRenderError
  invertColors : PDFPrecompiledPage → PDFPrecompiledPage
  optimize : PDFPrecompiledPage → PDFPrecompiledPage
  nsecsElapsed : Int

/-- The error of an invalid page index: `pageIndex + 1` is computed in `size_t`,
an unsigned integer of 64 bits. -/
def pageDoesNotExist (pageIndex : Nat) : PDFRenderError :=
  ⟨RenderErrorType.Error,
    "Page ".toList ++ number (((pageIndex + 1) % 2 ^ 64 : Nat) : Int) ++
      " doesn\x27t exist.".toList⟩

/-- `PDFRenderer::render(painter, rectangle, pageIndex)`: the returned errors,
and the page and the matrix with which the content was processed (none when no
content was processed). -/
def PDFRenderer.render (catalog : PDFCatalog) (processor : ContentProcessor)
    (rectangle : QRectF) (pageIndex : Nat) :
    List PDFRenderError × Option (PDFPage × QMatrix) :=
  if pageIndex ≥ catalog.pageCount ∨ (catalog.getPage pageIndex).isNone then
    ([pageDoesNotExist pageIndex], none)
  else
    match catalog.getPage pageIndex with
    | none => ([pageDoesNotExist pageIndex], none)
    | some page =>
      let matrix := createPagePointToDevicePointMatrix page rectangle
      (processor.painterErrors page matrix, some (page, matrix))

/-- `PDFRenderer::render(painter, matrix, pageIndex)`. -/
def PDFRenderer.renderWithMatrix (catalog : PDFCatalog) (processor : ContentProcessor)
    (matrix : QMatrix) (pageIndex : Nat) :
    List PDFRenderError × Option (PDFPage × QMatrix) :=
  if pageIndex ≥ catalog.pageCount ∨ (catalog.getPage pageIndex).isNone then
    ([pageDoesNotExist pageIndex], none)
  else
    match catalog.getPage pageIndex with
    | none => ([pageDoesNotExist pageIndex], none)
    | some page => (processor.painterErrors page matrix, some (page, matrix))

/-- `PDFPrecompiledPage::finalize`: the compilation time and the errors are stored. -/
def PDFPrecompiledPage.finalize (page : PDFPrecompiledPage) (compilingTimeNS : Int)
    (errors : List PDFRenderError) : PDFPrecompiledPage :=
  { page with compilingTimeNS := compilingTimeNS, errors := errors }

/-- `PDFRenderer::compile`: the compiled page after the call. -/
def PDFRenderer.compile (catalog : PDFCatalog) (processor : ContentProcessor)
    (invertColorsFlag : Bool) (precompiledPage : PDFPrecompiledPage) (pageIndex : Nat) :
    PDFPrecompiledPage :=
  if pageIndex ≥ catalog.pageCount ∨ (catalog.getPage pageIndex).isNone then
    precompiledPage.finalize 0 [pageDoesNotExist pageIndex]
  else
    match catalog.getPage pageIndex with
    | none => precompiledPage.finalize 0 [pageDoesNotExist pageIndex]
    | some page =>
      let generated := processor.generate page precompiledPage
      let inverted := if invertColorsFlag then processor.invertColors generated.1 else generated.1
      (processor.optimize inverted).finalize processor.nsecsElapsed generated.2

/-! ## Default rasterizer count -/

/-- `qBound(min, val, max)`: `qMax(min, qMin(max, val))`. -/
def qBound (min val max : Int) : Int := Max.max min (Min.min max val)

/-- `PDFRasterizerPool::getDefaultRasterizerCount`, for the value that
`QThread::idealThreadCount()` returns; the division of `int` truncates. -/
def getDefaultRasterizerCount (idealThreadCount : Int) : Int :=
  let hint := Int.tdiv idealThreadCount 2
  qBound 1 hint 16

/-! ## Image writer settings -/

/-- The options of `QImageIOHandler` that `selectFormat` asks for. -/
inductive ImageOption
  | CompressionRatio
  | Quality
  | Gamma
  | OptimizedWrite
  | ProgressiveScanWrite
  | SupportedSubTypes
  deriving DecidableEq, Repr

/-- What a `QImageWriter` set to a format reports: the supported subtypes and
whether an option is supported. -/
structure ImageWriterBackend where
  supportedSubTypes : QString → List QString
  supportsOption : QString → ImageOption → Bool

structure PDFImageWriterSettings where
  m_formats : List QString
  m_currentFormat : QString
  m_currentSubtype : QString
  m_subtypes : List QString
  m_compression : Int
  m_quality : Int
  m_gamma : ℚ
  m_optimizedWrite : Bool
  m_progressiveScanWrite : Bool
  m_supportedOptions : List ImageOption
  deriving DecidableEq

/-- `PDFImageWriterSettings::selectFormat`. -/
def PDFImageWriterSettings.selectFormat (backend : ImageWriterBackend)
    (s : PDFImageWriterSettings) (format : QString) : PDFImageWriterSettings :=
  if s.m_currentFormat ≠ format then
    let s1 := { s with
      m_currentFormat := format
      m_compression := 0
      m_quality := 0
      m_gamma := 0
      m_optimizedWrite := false
      m_progressiveScanWrite := false
      m_subtypes := backend.supportedSubTypes format }
    let s2 := { s1 with m_currentSubtype := if !s1.m_subtypes.isEmpty then s1.m_subtypes.headD [] else [] }
    let s3 :=
      if format = "jpeg".toList ∨ format = "jpg".toList then
        { s2 with m_quality := 75, m_optimizedWrite := false, m_progressiveScanWrite := false }
      else if format = "png".toList then
        { s2 with m_compression := 50, m_quality := 50, m_gamma := 0 }
      else if format = "tif".toList ∨ format = "tiff".toList then
        { s2 with m_compression := 1 }
      else if format = "webp".toList then
        { s2 with m_quality := 75 }
      else s2
    { s3 with
      m_supportedOptions :=
        [ImageOption.CompressionRatio, ImageOption.Quality, ImageOption.Gamma,
          ImageOption.OptimizedWrite, ImageOption.ProgressiveScanWrite,
          ImageOption.SupportedSubTypes].filter (fun option => backend.supportsOption format option) }
  else s

def PDFImageWriterSettings.setCompression (s : PDFImageWriterSettings) (compression : Int) :
    PDFImageWriterSettings := { s with m_compression := compression }

def PDFImageWriterSettings.setQuality (s : PDFImageWriterSettings) (quality : Int) :
    PDFImageWriterSettings := { s with m_quality := quality }

def PDFImageWriterSettings.setGamma (s : PDFImageWriterSettings) (gamma : ℚ) :
    PDFImageWriterSettings := { s with m_gamma := gamma }

def PDFImageWriterSettings.setOptimizedWrite (s : PDFImageWriterSettings)
    (optimizedWrite : Bool) : PDFImageWriterSettings := { s with m_optimizedWrite := optimizedWrite }

def PDFImageWriterSettings.setProgressiveScanWrite (s : PDFImageWriterSettings)
    (progressiveScanWrite : Bool) : PDFImageWriterSettings :=
  { s with m_progressiveScanWrite := progressiveScanWrite }

def PDFImageWriterSettings.setCurrentSubtype (s : PDFImageWriterSettings)
    (currentSubtype : QString) : PDFImageWriterSettings := { s with m_currentSubtype := currentSubtype }

def PDFImageWriterSettings.getCurrentFormat (s : PDFImageWriterSettings) : QString :=
  s.m_currentFormat

/-- The values that `selectFormat` resets: compression, quality, gamma,
optimized write and progressive scan write. -/
def PDFImageWriterSettings.values (s : PDFImageWriterSettings) : Int × Int × ℚ × Bool × Bool :=
  (s.m_compression, s.m_quality, s.m_gamma, s.m_optimizedWrite, s.m_progressiveScanWrite)

/-- The default values of a format, as the specification lists them. -/
def defaultValues (format : QString) : Int × Int × ℚ × Bool × Bool :=
  if format = "jpeg".toList ∨ format = "jpg".toList then (0, 75, 0, false, false)
  else if format = "png".toList then (50, 50, 0, false, false)
  else if format = "tif".toList ∨ format = "tiff".toList then (1, 0, 0, false, false)
  else if format = "webp".toList then (0, 75, 0, false, false)
  else (0, 0, 0, false, false)

/-- A backend that knows the subtypes of `webp` and says that every format
supports quality, for the examples. -/
def exampleBackend : ImageWriterBackend :=
  { supportedSubTypes := fun format =>
      if format = "webp".toList then ["lossy".toList, "lossless".toList] else []
    supportsOption := fun _ option => decide (option = ImageOption.Quality) }

/-- Settings whose current format is `png`, with values changed by the setters. -/
def exampleWriterSettings : PDFImageWriterSettings :=
  { m_formats := ["png".toList, "jpeg".toList, "webp".toList]
    m_currentFormat := "png".toList
    m_currentSubtype := []
    m_subtypes := []
    m_compression := 90
    m_quality := 10
    m_gamma := 2
    m_optimizedWrite := true
    m_progressiveScanWrite := true
    m_supportedOptions := [ImageOption.Quality] }

/-- A catalog of three pages. -/
def exampleCatalog : PDFCatalog := ⟨3, fun i => if i < 3 then some smallPage else none⟩

/-- A content processor that reports one error for every content. -/
def exampleProcessor : ContentProcessor :=
  { painterErrors := fun _ _ => [⟨RenderErrorType.NotImplemented, "Shading".toList⟩]
    generate := fun _ page => ({ page with program := 1 },
      [⟨RenderErrorType.NotImplemented, "Shading".toList⟩])
    invertColors := fun page => page
    optimize := fun page => page
    nsecsElapsed := 5000 }

/-! ## Concrete settings used in the examples -/

/-- A host with `/` as separator on which every directory exists. -/
def unixHost : Host := ⟨fun _ => true, '/'⟩

/-- A host with the backslash (code 92) as separator on which every directory
exists. -/
def windowsHost : Host := ⟨fun _ => true, Char.ofNat 92⟩

/-- The limits of the class declaration of PdfForQt. -/
def defaultLimits : ResolutionLimits := ⟨72, 6000, 100, 16384⟩

/-- Settings in Selection mode for a page selection and a page count, with
directory `/out` and the default template `Image_%`. -/
def selectionSettings (pageSelection : String) (pageCount : Nat) : PDFPageImageExportSettings :=
  { m_document := ⟨pageCount⟩
    m_resolutionMode := ResolutionMode.DPI
    m_pageSelectionMode := PageSelectionMode.Selection
    m_directory := "/out".toList
    m_fileTemplate := "Image_%".toList
    m_pageSelection := pageSelection.toList
    m_dpiResolution := 300
    m_pixelResolution := 1000 }

/-- Settings with a given file template, directory `/out`, all pages. -/
def templateSettings (fileTemplate : String) : PDFPageImageExportSettings :=
  { selectionSettings "" 10 with
    m_pageSelectionMode := PageSelectionMode.All
    m_fileTemplate := fileTemplate.toList }

/-! ## Specification-side notions for the page selection -/

/-- The comma-separated tokens of the page selection of the settings (empty
tokens are skipped). -/
def PDFPageImageExportSettings.tokens (s : PDFPageImageExportSettings) : List QString :=
  splitSkipEmptyParts ',' s.m_pageSelection

/-- The token `t` is a string of decimal digits denoting the number `n`. -/
def Denotes (t : QString) (n : Nat) : Prop :=
  t ≠ [] ∧ (∀ c ∈ t, isDigit c = true) ∧ digitsValue t = n

/-- A valid token as the specification words it: a string of decimal digits
denoting a number `n ≥ 1`, or `a-b` with two such numbers and `a ≤ b`. -/
def ValidToken (t : QString) : Prop :=
  (∃ n, Denotes t n ∧ 1 ≤ n) ∨
  ∃ a b na nb, t = a ++ '-' :: b ∧ Denotes a na ∧ Denotes b nb ∧ 1 ≤ na ∧ na ≤ nb

/-- A valid token all of whose numbers fit a signed 64-bit integer. -/
def ValidToken64 (t : QString) : Prop :=
  (∃ n, Denotes t n ∧ 1 ≤ n ∧ n < 2 ^ 63) ∨
  ∃ a b na nb, t = a ++ '-' :: b ∧ Denotes a na ∧ Denotes b nb ∧ 1 ≤ na ∧ na ≤ nb ∧ nb < 2 ^ 63

/-- The token selects the zero-based index `k`: it is the number `k + 1`, or a
range `a-b` with `a ≤ k + 1 ≤ b`. -/
def Selects (t : QString) (k : Int) : Prop :=
  (∃ n : Nat, Denotes t n ∧ k + 1 = n) ∨
  ∃ a b na nb, t = a ++ '-' :: b ∧ Denotes a na ∧ Denotes b nb ∧
    (na : Int) ≤ k + 1 ∧ k + 1 ≤ (nb : Int)

/-! ## Specification-side notions for the validation -/

/-- The rules of `validate`, named in the order in which the specification lists them. -/
inductive ValidationRule
  | directoryEmpty
  | directoryMissing
  | templateEmpty
  | templateWithoutPlaceholder
  | pageListEmpty
  | pageOutOfRange
  | dpiOutOfRange
  | pixelsOutOfRange
  deriving DecidableEq, Repr

/-- The message `validate` writes for a rule. -/
def ValidationRule.message (lim : ResolutionLimits) (s : PDFPageImageExportSettings) :
    ValidationRule → QString
  | ValidationRule.directoryEmpty => "Target directory is empty.".toList
  | ValidationRule.directoryMissing =>
    "Target directory \x27".toList ++ s.m_directory ++ "\x27 doesn\x27t exist.".toList
  | ValidationRule.templateEmpty => "File template is empty.".toList
  | ValidationRule.templateWithoutPlaceholder =>
    "File template must contain character \x27%\x27 for page number.".toList
  | ValidationRule.pageListEmpty =>
    "Page list is invalid. It should have form such as \x271-12,17,24,27-29\x27.".toList
  | ValidationRule.pageOutOfRange =>
    "Page list contains page, which is not in the document (".toList ++
      number (s.getPages.getLastD 0) ++ ").".toList
  | ValidationRule.dpiOutOfRange =>
    "DPI resolution should be in range ".toList ++ number lim.minDPIResolution ++
      " to ".toList ++ number lim.maxDPIResolution ++ ".".toList
  | ValidationRule.pixelsOutOfRange =>
    "Pixel resolution should be in range ".toList ++ number lim.minPixelResolution ++
      " to ".toList ++ number lim.maxPixelResolution ++ ".".toList

/-- Substitution of the first occurrence only, as the specification words it. -/
def replaceFirst (before : Char) (after : QString) : QString → QString
  | [] => []
  | c :: cs => if c = before then after ++ cs else c :: replaceFirst before after cs

/-- The rectangle whose corners the derived matrix reaches: the target itself
without rotation and for `Rotate180`; for `Rotate90` the rectangle at the top
left corner of the target with width and height exchanged; for `Rotate270` the
rectangle at the bottom right corner of the target with width and height
exchanged. -/
def reachedRectangle (rotation : PageRotation) (r : QRectF) : QRectF :=
  match rotation with
  | PageRotation.None => r
  | PageRotation.Rotate180 => r
  | PageRotation.Rotate90 => ⟨r.x, r.y, r.h, r.w⟩
  | PageRotation.Rotate270 => ⟨r.x + r.w - r.h, r.y + r.h - r.w, r.h, r.w⟩

/-- `QMatrix::determinant`: the determinant of the linear part. -/
def QMatrix.determinant (m : QMatrix) : ℚ := m.m11 * m.m22 - m.m12 * m.m21

/-! ## Invariants of the rasterizer and of the pool -/

/-- The invariant behind the exclusion of the two flags: a rasterizer with
`ValidOpenGL` has a surface and has not failed. -/
def PDFRasterizer.Consistent (s : PDFRasterizer) : Prop :=
  s.m_features.ValidOpenGL = true → s.m_surface = true ∧ s.m_features.FailedOpenGL = false

/-- The invariant of the pool of `K` rasterizers: the semaphore count is not
negative; count, waiting, holding and pushing threads add up to `K`; idle and
held rasterizers add up to `K`. -/
def PDFRasterizerPool.Invariant (K : Nat) (pool : PDFRasterizerPool) : Prop :=
  0 ≤ pool.m_semaphore ∧
  pool.m_semaphore + ((pool.threads.map PoolThread.waiting).sum : Int) +
      ((pool.threads.map PoolThread.held).sum : Int) +
      ((pool.threads.map PoolThread.pushing).sum : Int) = K ∧
  pool.m_rasterizers.length + (pool.threads.map PoolThread.held).sum = K

/-! ## Lemmas on sorting and on removing duplicates -/

theorem mem_unique : ∀ (l : List Int) (x : Int), x ∈ unique l ↔ x ∈ l
  | [], x => by simp [unique]
  | [a], x => by simp [unique]
  | a :: b :: l, x => by
    have ih := mem_unique (b :: l) x
    unfold unique
    split_ifs with h
    · subst h
      rw [ih]
      simp
    · simp only [List.mem_cons] at ih ⊢
      rw [ih]

theorem unique_sorted : ∀ l : List Int, List.Sorted (· ≤ ·) l → List.Sorted (· < ·) (unique l)
  | [], _ => by simp [unique]
  | [a], _ => by simp [unique]
  | a :: b :: l, h => by
    have hbl : List.Sorted (· ≤ ·) (b :: l) := h.of_cons
    have ih := unique_sorted (b :: l) hbl
    unfold unique
    split_ifs with hab
    · exact ih
    · refine List.sorted_cons.2 ⟨?_, ih⟩
      intro c hc
      have hc2 : c ∈ b :: l := (mem_unique (b :: l) c).1 hc
      have hab2 : a ≤ b := List.rel_of_sorted_cons h b (List.mem_cons_self b l)
      have hlt : a < b := lt_of_le_of_ne hab2 hab
      rcases List.mem_cons.1 hc2 with rfl | hcl
      · exact hlt
      · exact lt_of_lt_of_le hlt (List.rel_of_sorted_cons hbl c hcl)

theorem mem_qSort (l : List Int) (x : Int) : x ∈ qSort l ↔ x ∈ l :=
  (List.perm_insertionSort (· ≤ ·) l).mem_iff

theorem sorted_unique_qSort (l : List Int) : List.Sorted (· < ·) (unique (qSort l)) :=
  unique_sorted _ (List.sorted_insertionSort (· ≤ ·) l)

theorem mem_unique_qSort (l : List Int) (x : Int) : x ∈ unique (qSort l) ↔ x ∈ l := by
  rw [mem_unique, mem_qSort]

theorem mem_iota (count : Nat) (low k : Int) :
    k ∈ iota count low ↔ low ≤ k ∧ k < low + count := by
  unfold iota
  simp only [List.mem_map, List.mem_range]
  constructor
  · rintro ⟨i, hi, rfl⟩
    omega
  · rintro ⟨h1, h2⟩
    refine ⟨(k - low).toNat, ?_, ?_⟩ <;> omega

theorem sorted_iota (count : Nat) (low : Int) : List.Sorted (· < ·) (iota count low) := by
  unfold iota
  refine List.Pairwise.map _ ?_ (List.pairwise_lt_range count)
  intro a b hab
  omega

/-! ## Lemmas on the parsing loop -/

theorem getPagesLoop_sorted : ∀ (parts : List QString) (result : List Int) (ok : Bool),
    List.Sorted (· < ·) result → (getPagesLoop parts result ok).2 = true →
    List.Sorted (· < ·) (getPagesLoop parts result ok).1
  | [], result, ok, h, _ => by simpa [getPagesLoop] using h
  | part :: parts, result, ok, _, hok => by
    unfold getPagesLoop at hok ⊢
    by_cases hp : (parsePart part result).2 = true
    · simp only [hp, Bool.not_true, Bool.false_eq_true, if_false] at hok ⊢
      exact getPagesLoop_sorted parts _ true (sorted_unique_qSort _) hok
    · simp [hp] at hok

theorem splitKeepEmptyParts_of_not_mem (sep : Char) :
    ∀ t : QString, sep ∉ t → splitKeepEmptyParts sep t = [t]
  | [], _ => rfl
  | c :: cs, h => by
    have hc : c ≠ sep := fun e => h (e ▸ List.mem_cons_self c cs)
    have hcs : sep ∉ cs := fun e => h (List.mem_cons_of_mem c e)
    simp [splitKeepEmptyParts, hc, splitKeepEmptyParts_of_not_mem sep cs hcs]

theorem splitKeepEmptyParts_append (sep : Char) (hi : QString) :
    ∀ lo : QString, sep ∉ lo →
      splitKeepEmptyParts sep (lo ++ sep :: hi) = lo :: splitKeepEmptyParts sep hi
  | [], _ => by simp [splitKeepEmptyParts]
  | c :: cs, h => by
    have hc : c ≠ sep := fun e => h (e ▸ List.mem_cons_self c cs)
    have hcs : sep ∉ cs := fun e => h (List.mem_cons_of_mem c e)
    simp [splitKeepEmptyParts, hc, splitKeepEmptyParts_append sep hi cs hcs]

theorem isSpace_eq_false_of_isDigit (c : Char) (h : isDigit c = true) : isSpace c = false := by
  simp only [isDigit, Bool.and_eq_true, decide_eq_true_eq] at h
  simp only [isSpace, Bool.or_eq_false_iff, Bool.and_eq_false_imp, decide_eq_false_iff_not,
    decide_eq_true_eq]
  omega

theorem dropWhile_eq_self (p : Char → Bool) :
    ∀ l : QString, (∀ c ∈ l, p c = false) → l.dropWhile p = l
  | [], _ => rfl
  | c :: cs, h => by simp [List.dropWhile, h c (List.mem_cons_self c cs)]

theorem trimmed_of_digits (t : QString) (h : ∀ c ∈ t, isDigit c = true) : trimmed t = t := by
  have h1 : t.dropWhile isSpace = t :=
    dropWhile_eq_self isSpace t (fun c hc => isSpace_eq_false_of_isDigit c (h c hc))
  have h2 : t.reverse.dropWhile isSpace = t.reverse :=
    dropWhile_eq_self isSpace t.reverse
      (fun c hc => isSpace_eq_false_of_isDigit c (h c (List.mem_reverse.1 hc)))
  unfold trimmed
  rw [h1, h2, List.reverse_reverse]

theorem hyphen_not_mem_of_digits (t : QString) (h : ∀ c ∈ t, isDigit c = true) : '-' ∉ t := by
  intro hm
  have := h '-' hm
  revert this
  decide

theorem parseSigned_of_denotes (t : QString) (n : Nat) (h : Denotes t n) :
    parseSigned t = some (n : Int) := by
  obtain ⟨hne, hd, hv⟩ := h
  cases t with
  | nil => exact absurd rfl hne
  | cons c cs =>
    have hc : isDigit c = true := hd c (List.mem_cons_self c cs)
    have hc2 : 48 ≤ c.toNat ∧ c.toNat ≤ 57 := by
      simpa [isDigit] using hc
    have hplus : c ≠ '+' := by
      rintro rfl
      revert hc
      decide
    have hminus : ¬ (c = '-' ∨ c.toNat = 0x2212) := by
      rintro (rfl | h2)
      · revert hc
        decide
      · omega
    have hall : (c :: cs).all isDigit = true := List.all_eq_true.2 hd
    simp only [parseSigned, hplus, hminus, if_false, parseDigits, List.isEmpty_cons,
      Bool.false_eq_true, hall, if_true, Option.map_some', hv]

theorem toLongLong_of_denotes (t : QString) (n : Nat) (h : Denotes t n) (hn : n < 2 ^ 63) :
    toLongLong t = ((n : Int), true) := by
  have hb : (-2 ^ 63 ≤ (n : Int) ∧ (n : Int) ≤ 2 ^ 63 - 1) := by
    constructor <;> omega
  simp only [toLongLong, trimmed_of_digits t h.2.1, parseSigned_of_denotes t n h, hb,
    and_self, if_true]

theorem toLongLong_of_denotes_large (t : QString) (n : Nat) (h : Denotes t n)
    (hn : 2 ^ 63 ≤ n) : toLongLong t = (0, false) := by
  have hb : ¬ (-2 ^ 63 ≤ (n : Int) ∧ (n : Int) ≤ 2 ^ 63 - 1) := by
    rintro ⟨_, h2⟩
    omega
  simp only [toLongLong, trimmed_of_digits t h.2.1, parseSigned_of_denotes t n h, hb, if_false]

theorem denotes_unique (t : QString) (n m : Nat) (h1 : Denotes t n) (h2 : Denotes t m) :
    n = m := h1.2.2.symm.trans h2.2.2

theorem split_range (a b : QString) (ha : ∀ c ∈ a, isDigit c = true)
    (hb : ∀ c ∈ b, isDigit c = true) : splitKeepEmptyParts '-' (a ++ '-' :: b) = [a, b] := by
  rw [splitKeepEmptyParts_append '-' b a (hyphen_not_mem_of_digits a ha),
    splitKeepEmptyParts_of_not_mem '-' b (hyphen_not_mem_of_digits b hb)]

theorem parsePart_valid (t : QString) (h : ValidToken64 t) (r : List Int) :
    ∃ l : List Int, parsePart t r = (r ++ l, true) ∧ ∀ k, k ∈ l ↔ Selects t k := by
  rcases h with ⟨n, hden, h1, h63⟩ | ⟨a, b, na, nb, rfl, hda, hdb, h1, hab, h63⟩
  · have hno : '-' ∉ t := hyphen_not_mem_of_digits t hden.2.1
    refine ⟨[(n : Int) - 1], ?_, ?_⟩
    · simp [parsePart, splitKeepEmptyParts_of_not_mem '-' t hno,
        toLongLong_of_denotes t n hden h63]
    · intro k
      constructor
      · intro hk
        have hk2 : k = (n : Int) - 1 := by simpa using hk
        exact Or.inl ⟨n, hden, by omega⟩
      · rintro (⟨m, hm, hkm⟩ | ⟨a, b, na, nb, rfl, _, _, _, _⟩)
        · have := denotes_unique t n m hden hm
          simp only [List.mem_singleton]
          omega
        · exact absurd (List.mem_append_right a (List.mem_cons_self '-' b)) hno
  · have hs := split_range a b hda.2.1 hdb.2.1
    have ha63 : na < 2 ^ 63 := lt_of_le_of_lt hab h63
    refine ⟨iota (((nb : Int) - 1) - ((na : Int) - 1) + 1).toNat ((na : Int) - 1), ?_, ?_⟩
    · have hle : (na : Int) - 1 ≤ (nb : Int) - 1 := by omega
      have hpos : (na : Int) - 1 ≥ 0 := by omega
      simp [parsePart, hs, toLongLong_of_denotes a na hda ha63,
        toLongLong_of_denotes b nb hdb h63, hle, hpos]
    · intro k
      rw [mem_iota]
      constructor
      · intro hk
        exact Or.inr ⟨a, b, na, nb, rfl, hda, hdb, by omega, by omega⟩
      · rintro (⟨m, hm, _⟩ | ⟨a2, b2, na2, nb2, heq, hda2, hdb2, hlo, hhi⟩)
        · exact absurd (List.mem_append_right a (List.mem_cons_self '-' b))
            (hyphen_not_mem_of_digits _ hm.2.1)
        · have hs2 := split_range a2 b2 hda2.2.1 hdb2.2.1
          rw [← heq, hs] at hs2
          have hea : a = a2 := by
            injection hs2
          have heb : b = b2 := by
            injection hs2 with _ h2
            injection h2
          subst hea
          subst heb
          have e1 := denotes_unique a na na2 hda hda2
          have e2 := denotes_unique b nb nb2 hdb hdb2
          omega

theorem getPagesLoop_valid : ∀ (parts : List QString) (result : List Int),
    (∀ t ∈ parts, ValidToken64 t) →
    (getPagesLoop parts result true).2 = true ∧
      ∀ k, k ∈ (getPagesLoop parts result true).1 ↔ (k ∈ result ∨ ∃ t ∈ parts, Selects t k)
  | [], result, _ => by simp [getPagesLoop]
  | part :: parts, result, h => by
    obtain ⟨l, hl, hsel⟩ := parsePart_valid part (h part (List.mem_cons_self part parts)) result
    have ih := getPagesLoop_valid parts (unique (qSort (result ++ l)))
      (fun t ht => h t (List.mem_cons_of_mem part ht))
    have hstep : getPagesLoop (part :: parts) result true =
        getPagesLoop parts (unique (qSort (result ++ l))) true := by
      simp [getPagesLoop, hl]
    rw [hstep]
    refine ⟨ih.1, fun k => ?_⟩
    rw [ih.2 k, mem_unique_qSort, List.mem_append, hsel k]
    constructor
    · rintro ((hr | hp) | ⟨t, ht, hk⟩)
      · exact Or.inl hr
      · exact Or.inr ⟨part, List.mem_cons_self part parts, hp⟩
      · exact Or.inr ⟨t, List.mem_cons_of_mem part ht, hk⟩
    · rintro (hr | ⟨t, ht, hk⟩)
      · exact Or.inl (Or.inl hr)
      · rcases List.mem_cons.1 ht with rfl | ht2
        · exact Or.inl (Or.inr hk)
        · exact Or.inr ⟨t, ht2, hk⟩

theorem getPagesLoop_cons_flag (part : QString) (parts : List QString) (result : List Int)
    (ok : Bool) : getPagesLoop (part :: parts) result ok = getPagesLoop (part :: parts) result true :=
  rfl

/-! ## Claims on the page selection -/

theorem getPages_sorted (s : PDFPageImageExportSettings) :
    List.Sorted (· < ·) s.getPages := by
  unfold PDFPageImageExportSettings.getPages
  cases s.m_pageSelectionMode with
  | All => exact sorted_iota _ _
  | Selection =>
    simp only
    by_cases hok : (getPagesLoop (splitSkipEmptyParts ',' s.m_pageSelection) [] false).2 = true
    · simp only [hok, Bool.not_true, Bool.false_eq_true, if_false]
      exact getPagesLoop_sorted _ _ _ List.sorted_nil hok
    · simp [hok]

/-- C4: for every settings value (every page-selection expression, every page
count, both selection modes) the list returned by `getPages` is strictly
ascending, hence free of duplicates. -/
theorem getPages_strictly_ascending (s : PDFPageImageExportSettings) :
    List.Sorted (· < ·) s.getPages :=
  getPages_sorted s

/-- The page list of valid tokens for a result vector that can always grow. -/
theorem getPages_valid_unbounded (s : PDFPageImageExportSettings)
    (hmode : s.m_pageSelectionMode = PageSelectionMode.Selection)
    (hvalid : ∀ t ∈ s.tokens, ValidToken64 t) :
    List.Sorted (· < ·) s.getPages ∧ ∀ k, k ∈ s.getPages ↔ ∃ t ∈ s.tokens, Selects t k := by
  refine ⟨getPages_sorted s, fun k => ?_⟩
  unfold PDFPageImageExportSettings.getPages
  rw [hmode]
  unfold PDFPageImageExportSettings.tokens at hvalid ⊢
  generalize splitSkipEmptyParts ',' s.m_pageSelection = parts at hvalid ⊢
  cases parts with
  | nil => simp [getPagesLoop]
  | cons part parts =>
    have h := getPagesLoop_valid (part :: parts) [] hvalid
    simp only [getPagesLoop_cons_flag part parts [] false, h.1, Bool.not_true,
      Bool.false_eq_true, if_false]
    rw [h.2 k]
    simp


/-! ### The result vector with a bound on its size -/

theorem parsePartBounded_eq (maxSize : Nat) (part : QString) (result : List Int)
    (r : List Int × Bool) (h : parsePartBounded maxSize part result = some r) :
    r = parsePart part result := by
  unfold parsePartBounded at h
  unfold parsePart
  split at h
  · simp only at h ⊢
    split_ifs at h
    simp only [Option.some.injEq] at h
    exact h.symm
  · simp only at h ⊢
    split_ifs at h with h1 h2
    · simp only [Option.some.injEq] at h
      rw [if_pos h1]
      exact h.symm
    · simp only [Option.some.injEq] at h
      rw [if_neg h1]
      exact h.symm
  · simp only [Option.some.injEq] at h
    exact h.symm

theorem parsePartBounded_of_le (maxSize : Nat) (part : QString) (result : List Int)
    (h : (parsePart part result).1.length ≤ maxSize)
    (h64 : (parsePart part result).1.length < 2 ^ 64) :
    parsePartBounded maxSize part result = some (parsePart part result) := by
  rcases hsp : splitKeepEmptyParts '-' part with _ | ⟨a, _ | ⟨b, _ | ⟨c, rest⟩⟩⟩
  · simp only [parsePart, parsePartBounded, hsp]
  · simp only [parsePart, hsp, List.length_append, List.length_singleton] at h
    simp only [parsePart, parsePartBounded, hsp, h, if_true]
  · simp only [parsePart, hsp] at h h64
    simp only [parsePart, parsePartBounded, hsp]
    split_ifs with h1 h2
    · rfl
    · rw [if_pos h1] at h h64
      simp only [List.length_append, iota, List.length_map, List.length_range] at h h64
      exact absurd ⟨h64, h⟩ h2
    · rfl
  · simp only [parsePart, parsePartBounded, hsp]

theorem getPagesLoopBounded_eq (maxSize : Nat) :
    ∀ (parts : List QString) (result : List Int) (ok : Bool) (r : List Int × Bool),
      getPagesLoopBounded maxSize parts result ok = some r → r = getPagesLoop parts result ok
  | [], result, ok, r, h => by
    simp only [getPagesLoopBounded, Option.some.injEq] at h
    simp [getPagesLoop, ← h]
  | part :: parts, result, ok, r, h => by
    unfold getPagesLoopBounded at h
    unfold getPagesLoop
    cases hp : parsePartBounded maxSize part result with
    | none => simp [hp] at h
    | some r1 =>
      have hr1 := parsePartBounded_eq maxSize part result r1 hp
      simp only [hp] at h
      rw [← hr1]
      simp only
      split_ifs at h ⊢ with hc
      · simp only [Option.some.injEq] at h
        exact h.symm
      · exact getPagesLoopBounded_eq maxSize parts _ true r h

theorem getPagesBounded_eq (maxSize : Nat) (s : PDFPageImageExportSettings) (l : List Int)
    (h : s.getPagesBounded maxSize = some l) : l = s.getPages := by
  unfold PDFPageImageExportSettings.getPagesBounded at h
  unfold PDFPageImageExportSettings.getPages
  cases hm : s.m_pageSelectionMode with
  | All =>
    simp only [hm] at h ⊢
    split_ifs at h
    simp only [Option.some.injEq] at h
    exact h.symm
  | Selection =>
    simp only [hm] at h ⊢
    cases hl : getPagesLoopBounded maxSize (splitSkipEmptyParts ',' s.m_pageSelection) [] false
      with
    | none => simp [hl] at h
    | some r =>
      have hr := getPagesLoopBounded_eq maxSize _ _ _ r hl
      simp only [hl, Option.some.injEq] at h
      rw [← hr]
      exact h.symm

theorem selects_number (t : QString) (n : Nat) (h : Denotes t n) (k : Int) :
    Selects t k ↔ k + 1 = n := by
  constructor
  · rintro (⟨m, hm, hk⟩ | ⟨a, b, na, nb, rfl, _, _, _, _⟩)
    · rw [hk, denotes_unique t m n hm h]
    · exact absurd (List.mem_append_right a (List.mem_cons_self '-' b))
        (hyphen_not_mem_of_digits _ h.2.1)
  · intro hk
    exact Or.inl ⟨n, h, hk⟩

theorem selects_range (a b : QString) (na nb : Nat) (ha : Denotes a na) (hb : Denotes b nb)
    (k : Int) : Selects (a ++ '-' :: b) k ↔ (na : Int) ≤ k + 1 ∧ k + 1 ≤ (nb : Int) := by
  constructor
  · rintro (⟨m, hm, _⟩ | ⟨a2, b2, na2, nb2, heq, hda2, hdb2, hlo, hhi⟩)
    · exact absurd (List.mem_append_right a (List.mem_cons_self '-' b))
        (hyphen_not_mem_of_digits _ hm.2.1)
    · have hs := split_range a b ha.2.1 hb.2.1
      have hs2 := split_range a2 b2 hda2.2.1 hdb2.2.1
      rw [← heq, hs] at hs2
      have hea : a = a2 := by
        injection hs2
      have heb : b = b2 := by
        injection hs2 with _ h2
        injection h2
      subst hea
      subst heb
      have e1 := denotes_unique a na na2 ha hda2
      have e2 := denotes_unique b nb nb2 hb hdb2
      omega
  · rintro ⟨h1, h2⟩
    exact Or.inr ⟨a, b, na, nb, rfl, ha, hb, h1, h2⟩

theorem selects_nonneg (t : QString) (h : ValidToken64 t) (k : Int) (hs : Selects t k) :
    0 ≤ k := by
  rcases h with ⟨n, hden, h1, _⟩ | ⟨a, b, na, nb, rfl, hda, hdb, h1, _, _⟩
  · have := (selects_number t n hden k).1 hs
    omega
  · have := (selects_range a b na nb hda hdb k).1 hs
    omega

theorem length_le_of_sorted (N : Nat) (l : List Int) (hs : List.Sorted (· < ·) l)
    (hr : ∀ k ∈ l, 0 ≤ k ∧ k < (N : Int)) : l.length ≤ N := by
  have hsub : l.toFinset ⊆ Finset.Ico (0 : Int) (N : Int) := by
    intro k hk
    rw [List.mem_toFinset] at hk
    rw [Finset.mem_Ico]
    exact hr k hk
  have hc := Finset.card_le_card hsub
  rw [List.toFinset_card_of_nodup hs.nodup, Int.card_Ico] at hc
  simpa using hc

theorem parsePart_nil_sorted (t : QString) : List.Sorted (· < ·) (parsePart t []).1 := by
  unfold parsePart
  split
  · simp
  · simp only
    split_ifs
    · simpa using sorted_iota _ _
    · exact List.sorted_nil
  · exact List.sorted_nil

theorem parsePart_append (t : QString) (r : List Int) :
    parsePart t r = (r ++ (parsePart t []).1, (parsePart t []).2) := by
  unfold parsePart
  split
  · simp
  · simp only
    split_ifs <;> simp
  · simp

theorem selects_lt_of_valid (t : QString) (h : ValidToken64 t) (k : Int) (hs : Selects t k) :
    k < ((2 ^ 63 - 1 : Nat) : Int) := by
  rcases h with ⟨n, hden, _, h63⟩ | ⟨a, b, na, nb, rfl, hda, hdb, _, _, h63⟩
  · have := (selects_number t n hden k).1 hs
    omega
  · have := (selects_range a b na nb hda hdb k).1 hs
    omega

theorem getPagesLoopBounded_valid (maxSize N : Nat) (hcap : 2 * N ≤ maxSize)
    (h64 : 2 * N < 2 ^ 64) :
    ∀ (parts : List QString) (result : List Int),
      (∀ t ∈ parts, ValidToken64 t) → (∀ t ∈ parts, ∀ k, Selects t k → k < (N : Int)) →
      List.Sorted (· < ·) result → (∀ k ∈ result, 0 ≤ k ∧ k < (N : Int)) →
      ∃ r, getPagesLoopBounded maxSize parts result true = some r
  | [], result, _, _, _, _ => ⟨(result, true), rfl⟩
  | part :: parts, result, hv, hn, hs, hr => by
    have hvp := hv part (List.mem_cons_self part parts)
    obtain ⟨l, hl, hsel⟩ := parsePart_valid part hvp result
    have hle : l = (parsePart part []).1 := by
      have h2 := parsePart_append part result
      rw [hl] at h2
      exact List.append_cancel_left (congrArg Prod.fst h2)
    have hls : List.Sorted (· < ·) l := hle ▸ parsePart_nil_sorted part
    have hlr : ∀ k ∈ l, 0 ≤ k ∧ k < (N : Int) := fun k hk =>
      ⟨selects_nonneg part hvp k ((hsel k).1 hk),
        hn part (List.mem_cons_self part parts) k ((hsel k).1 hk)⟩
    have h1 := length_le_of_sorted N result hs hr
    have h2 := length_le_of_sorted N l hls hlr
    have hb : parsePartBounded maxSize part result = some (result ++ l, true) := by
      rw [← hl]
      apply parsePartBounded_of_le
      · rw [hl]
        simp only [List.length_append]
        omega
      · rw [hl]
        simp only [List.length_append]
        omega
    have ih := getPagesLoopBounded_valid maxSize N hcap h64 parts (unique (qSort (result ++ l)))
      (fun t ht => hv t (List.mem_cons_of_mem part ht))
      (fun t ht => hn t (List.mem_cons_of_mem part ht))
      (sorted_unique_qSort _)
      (fun k hk => by
        rw [mem_unique_qSort, List.mem_append] at hk
        rcases hk with hk | hk
        · exact hr k hk
        · exact hlr k hk)
    unfold getPagesLoopBounded
    simp only [hb, Bool.not_true, Bool.false_eq_true, if_false]
    exact ih

/-- C1 (amended): in Selection mode, when every comma-separated token is valid
and its numbers fit a signed 64-bit integer, every list that `getPages` returns
(with a result vector of at most `maxSize` elements, none being the exception of
`push_back` or `resize`) is the strictly ascending list of exactly the
zero-based indices `k` selected by some token; and `getPages` does return that
list when the numbers of the tokens are at most `N` and the vector holds `2 * N`
elements. -/
theorem getPages_of_valid_tokens (maxSize : Nat) (s : PDFPageImageExportSettings)
    (hmode : s.m_pageSelectionMode = PageSelectionMode.Selection)
    (hvalid : ∀ t ∈ s.tokens, ValidToken64 t) :
    (∀ l, s.getPagesBounded maxSize = some l →
      List.Sorted (· < ·) l ∧ ∀ k, k ∈ l ↔ ∃ t ∈ s.tokens, Selects t k) ∧
    (∀ N : Nat, (∀ t ∈ s.tokens, ∀ k, Selects t k → k < (N : Int)) → 2 * N ≤ maxSize →
      ∃ l, s.getPagesBounded maxSize = some l ∧
        List.Sorted (· < ·) l ∧ ∀ k, k ∈ l ↔ ∃ t ∈ s.tokens, Selects t k) := by
  have hfirst : ∀ l, s.getPagesBounded maxSize = some l →
      List.Sorted (· < ·) l ∧ ∀ k, k ∈ l ↔ ∃ t ∈ s.tokens, Selects t k := by
    intro l hl
    rw [getPagesBounded_eq maxSize s l hl]
    exact getPages_valid_unbounded s hmode hvalid
  refine ⟨hfirst, fun N hN hcap => ?_⟩
  have hex : ∃ l, s.getPagesBounded maxSize = some l := by
    unfold PDFPageImageExportSettings.getPagesBounded
    rw [hmode]
    unfold PDFPageImageExportSettings.tokens at hvalid hN
    generalize splitSkipEmptyParts ',' s.m_pageSelection = parts at hvalid hN
    cases parts with
    | nil => exact ⟨_, rfl⟩
    | cons part parts =>
      have hloop : ∃ r, getPagesLoopBounded maxSize (part :: parts) [] true = some r := by
        by_cases hbig : N ≤ 2 ^ 63 - 1
        · exact getPagesLoopBounded_valid maxSize N hcap (by omega) (part :: parts) [] hvalid hN
            List.sorted_nil (fun k hk => absurd hk (List.not_mem_nil k))
        · exact getPagesLoopBounded_valid maxSize (2 ^ 63 - 1) (by omega) (by omega)
            (part :: parts) [] hvalid (fun t ht k hk => selects_lt_of_valid t (hvalid t ht) k hk)
            List.sorted_nil (fun k hk => absurd hk (List.not_mem_nil k))
      obtain ⟨r, hr⟩ := hloop
      have hr2 : getPagesLoopBounded maxSize (part :: parts) [] false = some r := hr
      simp only [hr2]
      exact ⟨_, rfl⟩
  obtain ⟨l, hl⟩ := hex
  exact ⟨l, hl, hfirst l hl⟩

/-- The tokens of the example expression of the specification. -/
theorem example_tokens :
    (selectionSettings "1-12,17,24,27-29" 30).tokens =
      ["1-12".toList, "17".toList, "24".toList, "27-29".toList] := by
  decide

theorem example_tokens_valid :
    ∀ t ∈ (selectionSettings "1-12,17,24,27-29" 30).tokens, ValidToken64 t := by
  rw [example_tokens]
  intro t ht
  simp only [List.mem_cons, List.mem_singleton, List.not_mem_nil, or_false] at ht
  rcases ht with rfl | rfl | rfl | rfl
  · exact Or.inr ⟨"1".toList, "12".toList, 1, 12, by decide, ⟨by decide, by decide, by decide⟩,
      ⟨by decide, by decide, by decide⟩, by decide, by decide, by norm_num⟩
  · exact Or.inl ⟨17, ⟨by decide, by decide, by decide⟩, by decide, by norm_num⟩
  · exact Or.inl ⟨24, ⟨by decide, by decide, by decide⟩, by decide, by norm_num⟩
  · exact Or.inr ⟨"27".toList, "29".toList, 27, 29, by decide, ⟨by decide, by decide, by decide⟩,
      ⟨by decide, by decide, by decide⟩, by decide, by decide, by norm_num⟩

theorem example_tokens_bound :
    ∀ t ∈ (selectionSettings "1-12,17,24,27-29" 30).tokens, ∀ k, Selects t k →
      k < ((29 : Nat) : Int) := by
  rw [example_tokens]
  intro t ht k hk
  simp only [List.mem_cons, List.mem_singleton, List.not_mem_nil, or_false] at ht
  rcases ht with rfl | rfl | rfl | rfl
  · have e : "1-12".toList = "1".toList ++ '-' :: "12".toList := by decide
    rw [e] at hk
    have := (selects_range "1".toList "12".toList 1 12 ⟨by decide, by decide, by decide⟩
      ⟨by decide, by decide, by decide⟩ k).1 hk
    omega
  · have := (selects_number "17".toList 17 ⟨by decide, by decide, by decide⟩ k).1 hk
    omega
  · have := (selects_number "24".toList 24 ⟨by decide, by decide, by decide⟩ k).1 hk
    omega
  · have e : "27-29".toList = "27".toList ++ '-' :: "29".toList := by decide
    rw [e] at hk
    have := (selects_range "27".toList "29".toList 27 29 ⟨by decide, by decide, by decide⟩
      ⟨by decide, by decide, by decide⟩ k).1 hk
    omega

/-- C1 (witness): the example `1-12,17,24,27-29` of the specification has valid
tokens with numbers up to 29 and, with a vector that holds 58 elements, yields
the indices 0..11, 16, 23, 26..28. -/
theorem getPages_of_valid_tokens_witness :
    (∀ t ∈ (selectionSettings "1-12,17,24,27-29" 30).tokens, ValidToken64 t) ∧
    (selectionSettings "1-12,17,24,27-29" 30).getPagesBounded 58 =
      some [0, 1, 2, 3, 4, 5, 6, 7, 8, 9, 10, 11, 16, 23, 26, 27, 28] ∧
    ∃ l, (selectionSettings "1-12,17,24,27-29" 30).getPagesBounded 58 = some l ∧
      List.Sorted (· < ·) l ∧
      ∀ k, k ∈ l ↔ ∃ t ∈ (selectionSettings "1-12,17,24,27-29" 30).tokens, Selects t k :=
  ⟨example_tokens_valid, by decide,
    (getPages_of_valid_tokens 58 (selectionSettings "1-12,17,24,27-29" 30) rfl
      example_tokens_valid).2 29 example_tokens_bound (by decide)⟩

/-- C1 (counterexample): the single token `9223372036854775808` is a string of
decimal digits denoting a number `n ≥ 1` and selects the index
`9223372036854775807`, yet `getPages` returns the empty list, because the
number does not fit a 64-bit integer (no exception of the vector is involved:
one element is pushed and the vector is cleared). -/
theorem getPages_valid_tokens_counterexample :
    (selectionSettings "9223372036854775808" 30).m_pageSelectionMode =
      PageSelectionMode.Selection ∧
    (selectionSettings "9223372036854775808" 30).tokens = ["9223372036854775808".toList] ∧
    ValidToken "9223372036854775808".toList ∧
    Selects "9223372036854775808".toList 9223372036854775807 ∧
    (selectionSettings "9223372036854775808" 30).getPages = [] ∧
    (selectionSettings "9223372036854775808" 30).getPagesBounded 58 = some [] :=
  ⟨rfl, by decide,
    Or.inl ⟨9223372036854775808, ⟨by decide, by decide, by decide⟩, by norm_num⟩,
    Or.inl ⟨9223372036854775808, ⟨by decide, by decide, by decide⟩, by norm_num⟩,
    by decide, by decide⟩

/-- C3 (the code at the failing input): the expression `5,1-2-3` has the token
`1-2-3` of three hyphen-separated parts, for which the `default` branch sets
`ok = true`; `getPages` returns `[4]` and not the empty list. -/
theorem getPages_three_part_token :
    "1-2-3".toList ∈ (selectionSettings "5,1-2-3" 30).tokens ∧
    (splitKeepEmptyParts '-' "1-2-3".toList).length = 3 ∧
    (selectionSettings "5,1-2-3" 30).getPages = [4] := by
  decide

/-- C5 (the code at the failing input): with the page selection `0` of a
document of 10 pages, `validate` returns true in Selection mode although the
page list is `[-1]`: the single-number branch lacks the check `low >= 0` of the
range branch. -/
theorem validate_accepts_page_zero :
    (selectionSettings "0" 10).m_pageSelectionMode = PageSelectionMode.Selection ∧
    (selectionSettings "0" 10).validate unixHost defaultLimits = (true, none) ∧
    (selectionSettings "0" 10).getPages = [-1] := by
  decide

/-! ## Claims on the validation -/

theorem splitKeepEmptyParts_ne_nil (sep : Char) : ∀ t : QString, splitKeepEmptyParts sep t ≠ []
  | [] => by simp [splitKeepEmptyParts]
  | c :: cs => by
    unfold splitKeepEmptyParts
    split_ifs
    · simp
    · split <;> simp

theorem intercalate_cons_cons (a p : QString) (c : Char) (ps : List QString) :
    List.intercalate a ((c :: p) :: ps) = c :: List.intercalate a (p :: ps) := by
  cases ps <;> simp [List.intercalate, List.intersperse]

theorem intercalate_nil_cons (a : QString) (ps : List QString) (h : ps ≠ []) :
    List.intercalate a ([] :: ps) = a ++ List.intercalate a ps := by
  cases ps with
  | nil => exact absurd rfl h
  | cons q qs => simp [List.intercalate, List.intersperse]

theorem replace_eq_intercalate (before : Char) (after : QString) :
    ∀ t : QString, replace before after t =
      List.intercalate after (splitKeepEmptyParts before t)
  | [] => by simp [replace, splitKeepEmptyParts, List.intercalate]
  | c :: cs => by
    have ih := replace_eq_intercalate before after cs
    by_cases hc : c = before
    · simp only [replace, splitKeepEmptyParts, hc, if_true]
      rw [intercalate_nil_cons after _ (splitKeepEmptyParts_ne_nil before cs), ← ih]
    · simp only [replace, splitKeepEmptyParts, hc, if_false]
      rw [ih]
      cases hsp : splitKeepEmptyParts before cs with
      | nil => exact absurd hsp (splitKeepEmptyParts_ne_nil before cs)
      | cons q qs => simp only [intercalate_cons_cons]

theorem not_mem_replace (before : Char) (after : QString) (h : before ∉ after) :
    ∀ t : QString, before ∉ replace before after t
  | [] => by simp [replace]
  | c :: cs => by
    have ih := not_mem_replace before after h cs
    by_cases hc : c = before
    · simp only [replace, hc, if_true, List.mem_append]
      exact fun hm => hm.elim h ih
    · simp only [replace, hc, if_false, List.mem_cons]
      exact fun hm => hm.elim (fun e => hc e.symm) ih

theorem digitChar_ne_percent : ∀ d : Nat, d < 10 → Nat.digitChar d ≠ '%' := by
  decide

theorem percent_not_mem_toDigitsCore : ∀ (fuel n : Nat) (ds : List Char), '%' ∉ ds →
    '%' ∉ Nat.toDigitsCore 10 fuel n ds
  | 0, _, ds, h => by simpa [Nat.toDigitsCore] using h
  | fuel + 1, n, ds, h => by
    have hd : '%' ∉ Nat.digitChar (n % 10) :: ds := by
      simp only [List.mem_cons, not_or]
      exact ⟨fun e => digitChar_ne_percent _ (Nat.mod_lt n (by norm_num)) e.symm, h⟩
    unfold Nat.toDigitsCore
    simp only
    split_ifs
    · exact hd
    · exact percent_not_mem_toDigitsCore fuel _ _ hd

theorem percent_not_mem_number (n : Int) : '%' ∉ number n := by
  cases n with
  | ofNat k =>
    simp only [number, Nat.toDigits]
    exact percent_not_mem_toDigitsCore _ _ _ (by simp)
  | negSucc k =>
    simp only [number, Nat.toDigits, List.mem_cons, not_or]
    exact ⟨by decide, percent_not_mem_toDigitsCore _ _ _ (by simp)⟩

/-- C7 (amended): `getOutputFileName` substitutes every occurrence of `%` in
the template with the decimal page number `pageIndex + 1`: the file name is
the template cut at its `%` characters and joined again with the number, no
`%` remains in it, and only the extension and the directory are added. -/
theorem getOutputFileName_replaces_every_placeholder (host : Host)
    (s : PDFPageImageExportSettings) (pageIndex : Int) (outputFormat : QString) :
    '%' ∉ List.intercalate (number (pageIndex + 1)) (splitKeepEmptyParts '%' s.m_fileTemplate) ∧
    ∃ ext, (ext = [] ∨ ext = '.' :: outputFormat) ∧
      s.getOutputFileName host pageIndex outputFormat =
        toNativeSeparators host (s.m_directory ++ '/' ::
          (List.intercalate (number (pageIndex + 1)) (splitKeepEmptyParts '%' s.m_fileTemplate)
            ++ ext)) := by
  rw [← replace_eq_intercalate]
  refine ⟨not_mem_replace '%' _ (percent_not_mem_number _) _, ?_⟩
  unfold PDFPageImageExportSettings.getOutputFileName PDFPageImageExportSettings.outputName
  simp only
  split_ifs with h
  · exact ⟨'.' :: outputFormat, Or.inr rfl, rfl⟩
  · exact ⟨[], Or.inl rfl, by simp⟩

/-- C7 (counterexample): with the template `%_%` and page index 4 the file is
`/out/5_5.png`; substituting the first `%` only would leave `5_%`, but no `%`
remains in the returned name. -/
theorem getOutputFileName_first_placeholder_counterexample :
    (templateSettings "%_%").getOutputFileName unixHost 4 "png".toList = "/out/5_5.png".toList ∧
    replaceFirst '%' (number (4 + 1)) (templateSettings "%_%").m_fileTemplate = "5_%".toList ∧
    '%' ∉ (templateSettings "%_%").getOutputFileName unixHost 4 "png".toList := by
  decide

/-- C8 (amended): `getOutputFileName(pageIndex = 4, format = png)` with the
template `Image_%` and the directory `/out` returns `/out/Image_5.png` on a
host whose separator is `/`: the number in the name is `pageIndex + 1`. -/
theorem getOutputFileName_example :
    (templateSettings "Image_%").getOutputFileName unixHost 4 "png".toList =
      "/out/Image_5.png".toList := by
  decide

/-- C8 (counterexample): the name returned for page index 4 is not
`/out/Image_4.png`. -/
theorem getOutputFileName_example_counterexample :
    (templateSettings "Image_%").getOutputFileName unixHost 4 "png".toList ≠
      "/out/Image_4.png".toList := by
  decide

theorem toNativeSeparators_slash (host : Host) (h : host.nativeSeparator = '/') (t : QString) :
    toNativeSeparators host t = t := by
  unfold toNativeSeparators
  rw [h]
  induction t with
  | nil => rfl
  | cons c cs ih =>
    by_cases hc : c = '/'
    · simp [hc, ih]
    · simp [hc, ih]

theorem fromNativeSeparators_slash (host : Host) (h : host.nativeSeparator = '/') (t : QString) :
    fromNativeSeparators host t = t := by
  unfold fromNativeSeparators
  rw [h]
  induction t with
  | nil => rfl
  | cons c cs ih =>
    by_cases hc : c = '/'
    · simp [hc, ih]
    · simp [hc, ih]

theorem takeWhile_ne_append (sep : Char) (e rest : QString) (h : sep ∉ e) :
    (e.reverse ++ sep :: rest).takeWhile (fun c => c != sep) = e.reverse := by
  induction e using List.reverseRecOn with
  | nil => simp [List.takeWhile]
  | append_singleton e c ih =>
    have hc : c ≠ sep := fun hcs => h (by simp [hcs])
    have he : sep ∉ e := fun hm => h (by simp [hm])
    simp only [List.reverse_append, List.reverse_cons, List.reverse_nil, List.nil_append,
      List.singleton_append, List.cons_append]
    rw [List.takeWhile_cons_of_pos (by simpa using hc)]
    have ih2 := ih he
    rw [ih2]

theorem afterLast_append (sep : Char) (stem e : QString) (h : sep ∉ e) :
    afterLast sep (stem ++ sep :: e) = e := by
  unfold afterLast
  rw [List.reverse_append, List.reverse_cons, List.append_assoc, List.singleton_append,
    takeWhile_ne_append sep e stem.reverse h, List.reverse_reverse]

theorem afterLast_append_other (sep d : Char) (hd : d ≠ sep) (stem e : QString) (h : sep ∉ e) :
    afterLast sep (stem ++ d :: e) = afterLast sep stem ++ d :: e := by
  unfold afterLast
  rw [List.reverse_append, List.reverse_cons, List.append_assoc, List.singleton_append]
  rw [List.takeWhile_append_of_pos]
  · rw [List.takeWhile_cons_of_pos (by simpa using hd)]
    simp
  · intro c hc
    have hc2 : c ∈ e := List.mem_reverse.1 hc
    have : c ≠ sep := fun hcs => h (hcs ▸ hc2)
    simpa using this

theorem suffix_append (stem ext : QString) (h1 : '.' ∉ ext) (h2 : '/' ∉ ext) :
    suffix (stem ++ '.' :: ext) = ext := by
  unfold suffix
  simp only
  rw [afterLast_append_other '/' '.' (by decide) stem ext h2]
  rw [afterLast_append '.' _ ext h1]
  simp

theorem replace_append (before : Char) (after : QString) (u : QString) :
    ∀ t : QString, replace before after (t ++ u) = replace before after t ++ replace before after u
  | [] => rfl
  | c :: cs => by
    by_cases hc : c = before
    · simp [replace, hc, replace_append before after u cs]
    · simp [replace, hc, replace_append before after u cs]

theorem afterLast_of_not_mem (sep : Char) (t : QString) (h : sep ∉ t) : afterLast sep t = t := by
  unfold afterLast
  rw [List.takeWhile_eq_self_iff.2, List.reverse_reverse]
  intro c hc
  have hc2 : c ∈ t := List.mem_reverse.1 hc
  have : c ≠ sep := fun hcs => h (hcs ▸ hc2)
  simpa using this

theorem suffix_of_no_dot (file : QString) (h1 : '/' ∉ file) (h2 : '.' ∉ file) :
    suffix file = [] := by
  unfold suffix
  simp only [afterLast_of_not_mem '/' file h1]
  simp [h2]

theorem suffix_of_no_dot_in_file (dir file : QString) (h1 : '/' ∉ file) (h2 : '.' ∉ file) :
    suffix (dir ++ '/' :: file) = [] := by
  unfold suffix
  simp only [afterLast_append '/' dir file h1]
  simp [h2]

theorem map_eq_self_of_not_mem (f : Char → Char) (t : QString) (h : ∀ c ∈ t, f c = c) :
    t.map f = t := by
  induction t with
  | nil => rfl
  | cons c cs ih =>
    rw [List.map_cons, h c (List.mem_cons_self c cs),
      ih (fun d hd => h d (List.mem_cons_of_mem c hd))]

/-- C9 (amended): on every host `getOutputFileName` appends `.` and the
format to the substituted name if and only if the suffix of that name differs
from the format, and returns the directory, `/` and that name with every `/`
replaced by the native separator of the host (unchanged where the separator is
`/`). The suffix is the one of `QFileInfo`, read after the native separators of
the name are turned into `/`: the text after the last `.` when no `/` follows it,
and empty when the file name (what follows the last `/`) has no `.`. For a
template that ends in `.png` and the format `png` nothing is appended, on a host
whose separator is `/` or the backslash. -/
theorem getOutputFileName_appends_extension (host : Host) (s : PDFPageImageExportSettings)
    (pageIndex : Int) (outputFormat : QString) :
    (suffix (List.map (fun c => if c = host.nativeSeparator then '/' else c)
        (replace '%' (number (pageIndex + 1)) s.m_fileTemplate)) ≠ outputFormat →
      s.getOutputFileName host pageIndex outputFormat =
        List.map (fun c => if c = '/' then host.nativeSeparator else c)
          (s.m_directory ++ '/' ::
            (replace '%' (number (pageIndex + 1)) s.m_fileTemplate ++ '.' :: outputFormat))) ∧
    (suffix (List.map (fun c => if c = host.nativeSeparator then '/' else c)
        (replace '%' (number (pageIndex + 1)) s.m_fileTemplate)) = outputFormat →
      s.getOutputFileName host pageIndex outputFormat =
        List.map (fun c => if c = '/' then host.nativeSeparator else c)
          (s.m_directory ++ '/' :: replace '%' (number (pageIndex + 1)) s.m_fileTemplate)) ∧
    (∀ stem ext : QString, '.' ∉ ext → '/' ∉ ext → suffix (stem ++ '.' :: ext) = ext) ∧
    (∀ dir file : QString, '/' ∉ file → '.' ∉ file →
      suffix (dir ++ '/' :: file) = [] ∧ suffix file = []) ∧
    (host.nativeSeparator = '/' →
      (suffix (replace '%' (number (pageIndex + 1)) s.m_fileTemplate) ≠ outputFormat →
        s.getOutputFileName host pageIndex outputFormat =
          s.m_directory ++ '/' ::
            (replace '%' (number (pageIndex + 1)) s.m_fileTemplate ++ '.' :: outputFormat)) ∧
      (suffix (replace '%' (number (pageIndex + 1)) s.m_fileTemplate) = outputFormat →
        s.getOutputFileName host pageIndex outputFormat =
          s.m_directory ++ '/' :: replace '%' (number (pageIndex + 1)) s.m_fileTemplate)) ∧
    (host.nativeSeparator = '/' ∨ host.nativeSeparator = Char.ofNat 92 →
      ∀ stem, s.m_fileTemplate = stem ++ ".png".toList →
        s.getOutputFileName host pageIndex "png".toList =
          List.map (fun c => if c = '/' then host.nativeSeparator else c)
            (s.m_directory ++ '/' ::
              (replace '%' (number (pageIndex + 1)) stem ++ ".png".toList))) := by
  have hget : ∀ fmt, s.getOutputFileName host pageIndex fmt =
      List.map (fun c => if c = '/' then host.nativeSeparator else c)
        (s.m_directory ++ '/' ::
          (if suffix (List.map (fun c => if c = host.nativeSeparator then '/' else c)
              (replace '%' (number (pageIndex + 1)) s.m_fileTemplate)) ≠ fmt then
            replace '%' (number (pageIndex + 1)) s.m_fileTemplate ++ '.' :: fmt
          else replace '%' (number (pageIndex + 1)) s.m_fileTemplate)) := fun _ => rfl
  refine ⟨fun h => ?_, fun h => ?_, fun stem ext h1 h2 => suffix_append stem ext h1 h2,
    fun dir file h1 h2 => ⟨suffix_of_no_dot_in_file dir file h1 h2, suffix_of_no_dot file h1 h2⟩,
    fun hhost => ⟨fun h => ?_, fun h => ?_⟩, fun hhost stem he => ?_⟩
  · rw [hget, if_pos h]
  · rw [hget, if_neg (not_not.2 h)]
  · have hn := fromNativeSeparators_slash host hhost
      (replace '%' (number (pageIndex + 1)) s.m_fileTemplate)
    unfold fromNativeSeparators at hn
    rw [hget, hn, if_pos h]
    exact toNativeSeparators_slash host hhost _
  · have hn := fromNativeSeparators_slash host hhost
      (replace '%' (number (pageIndex + 1)) s.m_fileTemplate)
    unfold fromNativeSeparators at hn
    rw [hget, hn, if_neg (not_not.2 h)]
    exact toNativeSeparators_slash host hhost _
  · have hr : replace '%' (number (pageIndex + 1)) s.m_fileTemplate =
        replace '%' (number (pageIndex + 1)) stem ++ '.' :: "png".toList := by
      rw [he, replace_append]
      rfl
    have hpng : List.map (fun c => if c = host.nativeSeparator then '/' else c) "png".toList =
        "png".toList := by
      apply map_eq_self_of_not_mem
      intro c hc
      rcases hhost with h | h
      · rw [h]
        split_ifs with hcs
        · exact hcs.symm
        · rfl
      · rw [h]
        have hne : c ≠ Char.ofNat 92 := by
          intro hcs
          rw [hcs] at hc
          revert hc
          decide
        rw [if_neg hne]
    have hdot : (if '.' = host.nativeSeparator then '/' else '.') = '.' := by
      rcases hhost with h | h
      · rw [h]
        decide
      · rw [h]
        decide
    have hs : suffix (List.map (fun c => if c = host.nativeSeparator then '/' else c)
        (replace '%' (number (pageIndex + 1)) s.m_fileTemplate)) = "png".toList := by
      rw [hr, List.map_append, List.map_cons, hpng, hdot]
      exact suffix_append _ _ (by decide) (by decide)
    rw [hget, if_neg (not_not.2 hs), hr]
    rfl

/-- C9 (witness): on the host with separator `/` the template `Image_%.png`
keeps its single extension (`/out/Image_5.png`) and the template `Image_%` gets
it appended; on the host with the backslash the template `Image_%.png` keeps its
single extension too. -/
theorem getOutputFileName_appends_extension_witness :
    (templateSettings "Image_%.png").getOutputFileName unixHost 4 "png".toList =
      "/out/Image_5.png".toList ∧
    (templateSettings "Image_%").getOutputFileName unixHost 4 "png".toList =
      "/out/Image_5.png".toList ∧
    (templateSettings "Image_%.png").getOutputFileName windowsHost 4 "png".toList =
      "\x5cout\x5cImage_5.png".toList :=
  ⟨((getOutputFileName_appends_extension unixHost (templateSettings "Image_%.png") 4
      "png".toList).2.2.2.2.1 rfl).2 (by decide),
    ((getOutputFileName_appends_extension unixHost (templateSettings "Image_%") 4
      "png".toList).2.2.2.2.1 rfl).1 (by decide),
    (getOutputFileName_appends_extension windowsHost (templateSettings "Image_%.png") 4
      "png".toList).2.2.2.2.2 (Or.inr rfl) "Image_%".toList rfl⟩

/-- C9 (counterexample): on a host whose native separator is the backslash the
name returned for the template `Image_%.png` is not the directory, `/` and the
name: the separators are the native ones. And the suffix is not the text after
the last `.` of the substituted name when a `/` follows that `.`: for the
template `a.b/%`, the page index 0 and the format `b/1` the text after the last
`.` of `a.b/1` is the format, yet the format is appended. -/
theorem getOutputFileName_appends_extension_counterexample :
    (templateSettings "Image_%.png").getOutputFileName windowsHost 4 "png".toList =
      "\x5cout\x5cImage_5.png".toList ∧
    (templateSettings "Image_%.png").getOutputFileName windowsHost 4 "png".toList ≠
      (templateSettings "Image_%.png").m_directory ++ "/".toList ++ "Image_5.png".toList ∧
    afterLast '.' (replace '%' (number (0 + 1)) (templateSettings "a.b/%").m_fileTemplate) =
      "b/1".toList ∧
    (templateSettings "a.b/%").getOutputFileName unixHost 0 "b/1".toList =
      "/out/a.b/1.b/1".toList := by
  decide

/-! ## Claims on the page point to device point matrix -/

theorem map_rotation_none (box r : QRectF) (p : ℚ × ℚ) :
    (createPagePointToDevicePointMatrix ⟨PageRotation.None, box⟩ r).map p =
      (r.x + p.1 * (r.w / box.w), r.y + r.h - p.2 * (r.h / box.h)) := by
  simp only [createPagePointToDevicePointMatrix, QMatrix.map, QMatrix.scale, QMatrix.translate,
    QMatrix.identity, QRectF.left, QRectF.bottom, QRectF.width, QRectF.height]
  refine Prod.ext ?_ ?_ <;> simp only <;> ring

theorem map_rotation_180 (box r : QRectF) (p : ℚ × ℚ) :
    (createPagePointToDevicePointMatrix ⟨PageRotation.Rotate180, box⟩ r).map p =
      (r.x + p.1 * (r.w / box.w), r.y + p.2 * (r.h / box.h)) := by
  simp only [createPagePointToDevicePointMatrix, QMatrix.map, QMatrix.scale, QMatrix.translate,
    QMatrix.identity, QRectF.left, QRectF.top, QRectF.width, QRectF.height]
  refine Prod.ext ?_ ?_ <;> simp only <;> ring

theorem map_rotation_90 (box r : QRectF) (p : ℚ × ℚ) :
    (createPagePointToDevicePointMatrix ⟨PageRotation.Rotate90, box⟩ r).map p =
      (r.x + p.2 * (r.h / box.h), r.y + p.1 * (r.w / box.w)) := by
  simp only [createPagePointToDevicePointMatrix, QMatrix.map, QMatrix.scale, QMatrix.translate,
    QMatrix.rotate, QMatrix.identity, QRectF.left, QRectF.top, QRectF.width, QRectF.height]
  refine Prod.ext ?_ ?_ <;> norm_num <;> ring

theorem map_rotation_270 (box r : QRectF) (p : ℚ × ℚ) :
    (createPagePointToDevicePointMatrix ⟨PageRotation.Rotate270, box⟩ r).map p =
      (r.x + r.w - p.2 * (r.h / box.h), r.y + r.h - p.1 * (r.w / box.w)) := by
  simp only [createPagePointToDevicePointMatrix, QMatrix.map, QMatrix.scale, QMatrix.translate,
    QMatrix.rotate, QMatrix.identity, QRectF.right, QRectF.top, QRectF.width, QRectF.height]
  refine Prod.ext ?_ ?_ <;> norm_num <;> ring

theorem perm_swap_halves {α : Type} (a b c d : α) : List.Perm [c, d, a, b] [a, b, c, d] :=
  (List.perm_append_comm : List.Perm ([c, d] ++ [a, b]) ([a, b] ++ [c, d]))

theorem perm_swap_middle {α : Type} (a b c d : α) : List.Perm [a, c, b, d] [a, b, c, d] :=
  List.Perm.cons a (List.Perm.swap b c [d])

theorem perm_reverse_four {α : Type} (a b c d : α) : List.Perm [d, c, b, a] [a, b, c, d] :=
  (List.reverse_perm [a, b, c, d])

/-- C10 (amended): for a target rectangle and a page box of positive width
and height, the derived matrix maps the corners `(0,0)`, `(mw,0)`, `(0,mh)`,
`(mw,mh)` of the page box onto the four corners of the target rectangle for
`None` and `Rotate180`; for `Rotate90` and `Rotate270` onto the corners of the
rectangle with exchanged width and height at the top left (bottom right) corner
of the target, which is the target rectangle when its width equals its height. -/
theorem createPagePointToDevicePointMatrix_corners (page : PDFPage) (rectangle : QRectF)
    (hw : 0 < rectangle.width) (hh : 0 < rectangle.height)
    (hmw : 0 < page.rotatedMediaBox.width) (hmh : 0 < page.rotatedMediaBox.height) :
    List.Perm (page.boxCorners.map (createPagePointToDevicePointMatrix page rectangle).map)
        (reachedRectangle page.pageRotation rectangle).corners ∧
      (rectangle.width = rectangle.height →
        reachedRectangle page.pageRotation rectangle = rectangle) := by
  obtain ⟨rotation, box⟩ := page
  obtain ⟨x, y, w, h⟩ := rectangle
  simp only [QRectF.width, QRectF.height] at hw hh hmw hmh
  have h1 : box.w * (w / box.w) = w := mul_div_cancel₀ w (ne_of_gt hmw)
  have h2 : box.h * (h / box.h) = h := mul_div_cancel₀ h (ne_of_gt hmh)
  constructor
  · cases rotation with
    | None =>
      simp only [PDFPage.boxCorners, List.map, map_rotation_none, reachedRectangle,
        QRectF.corners, QRectF.left, QRectF.top, QRectF.right, QRectF.bottom, QRectF.width,
        QRectF.height, h1, h2, zero_mul, add_zero, sub_zero, add_sub_cancel_right]
      exact perm_swap_halves _ _ _ _
    | Rotate180 =>
      simp only [PDFPage.boxCorners, List.map, map_rotation_180, reachedRectangle,
        QRectF.corners, QRectF.left, QRectF.top, QRectF.right, QRectF.bottom, QRectF.width,
        QRectF.height, h1, h2, zero_mul, add_zero]
      exact List.Perm.refl _
    | Rotate90 =>
      simp only [PDFPage.boxCorners, List.map, map_rotation_90, reachedRectangle,
        QRectF.corners, QRectF.left, QRectF.top, QRectF.right, QRectF.bottom, QRectF.width,
        QRectF.height, h1, h2, zero_mul, add_zero]
      exact perm_swap_middle _ _ _ _
    | Rotate270 =>
      simp only [PDFPage.boxCorners, List.map, map_rotation_270, reachedRectangle,
        QRectF.corners, QRectF.left, QRectF.top, QRectF.right, QRectF.bottom, QRectF.width,
        QRectF.height, h1, h2, zero_mul, add_zero, sub_zero]
      have e1 : x + w - h + h = x + w := by ring
      have e2 : y + h - w + w = y + h := by ring
      rw [e1, e2]
      exact (perm_reverse_four _ _ _ _).trans (perm_swap_middle _ _ _ _)
  · intro hsq
    simp only [QRectF.width, QRectF.height] at hsq
    subst hsq
    cases rotation <;> simp [reachedRectangle]

/-- C10 (witness): a page box of 3 by 5 rotated by 90 degrees and the square
target rectangle at (10, 20) of side 7. -/
theorem createPagePointToDevicePointMatrix_corners_witness :
    List.Perm
        ((PDFPage.boxCorners ⟨PageRotation.Rotate90, ⟨0, 0, 3, 5⟩⟩).map
          (createPagePointToDevicePointMatrix ⟨PageRotation.Rotate90, ⟨0, 0, 3, 5⟩⟩
            ⟨10, 20, 7, 7⟩).map)
        (reachedRectangle PageRotation.Rotate90 ⟨10, 20, 7, 7⟩).corners ∧
      ((7 : ℚ) = 7 → reachedRectangle PageRotation.Rotate90 ⟨10, 20, 7, 7⟩ = ⟨10, 20, 7, 7⟩) :=
  createPagePointToDevicePointMatrix_corners ⟨PageRotation.Rotate90, ⟨0, 0, 3, 5⟩⟩
    ⟨10, 20, 7, 7⟩ (by norm_num [QRectF.width]) (by norm_num [QRectF.height])
    (by norm_num [QRectF.width]) (by norm_num [QRectF.height])

/-- C10 (counterexample): for `Rotate90`, the page box 1 by 1 and the target
rectangle at the origin of width 2 and height 1, the corner `(1, 0)` of the
page box is mapped to `(0, 2)`, which is no corner of the target rectangle. -/
theorem createPagePointToDevicePointMatrix_corners_counterexample :
    ((1 : ℚ), (0 : ℚ)) ∈ PDFPage.boxCorners ⟨PageRotation.Rotate90, ⟨0, 0, 1, 1⟩⟩ ∧
    (createPagePointToDevicePointMatrix ⟨PageRotation.Rotate90, ⟨0, 0, 1, 1⟩⟩ ⟨0, 0, 2, 1⟩).map
      (1, 0) = (0, 2) ∧
    ((0 : ℚ), (2 : ℚ)) ∉ (QRectF.mk 0 0 2 1).corners := by
  refine ⟨?_, ?_, ?_⟩
  · simp [PDFPage.boxCorners, QRectF.width, QRectF.height]
  · rw [map_rotation_90]
    norm_num
  · simp [QRectF.corners, QRectF.left, QRectF.top, QRectF.right, QRectF.bottom]

/-! ## Claims on the determinant of the matrix -/

theorem determinant_rotation_none (box r : QRectF) :
    (createPagePointToDevicePointMatrix ⟨PageRotation.None, box⟩ r).determinant =
      -((r.w / box.w) * (r.h / box.h)) := by
  simp only [createPagePointToDevicePointMatrix, QMatrix.determinant, QMatrix.scale,
    QMatrix.translate, QMatrix.identity, QRectF.left, QRectF.bottom, QRectF.width,
    QRectF.height]
  ring

theorem determinant_rotation_90 (box r : QRectF) :
    (createPagePointToDevicePointMatrix ⟨PageRotation.Rotate90, box⟩ r).determinant =
      -((r.w / box.w) * (r.h / box.h)) := by
  simp only [createPagePointToDevicePointMatrix, QMatrix.determinant, QMatrix.scale,
    QMatrix.translate, QMatrix.rotate, QMatrix.identity, QRectF.left, QRectF.top, QRectF.width,
    QRectF.height]
  norm_num
  ring

theorem determinant_rotation_270 (box r : QRectF) :
    (createPagePointToDevicePointMatrix ⟨PageRotation.Rotate270, box⟩ r).determinant =
      -((r.w / box.w) * (r.h / box.h)) := by
  simp only [createPagePointToDevicePointMatrix, QMatrix.determinant, QMatrix.scale,
    QMatrix.translate, QMatrix.rotate, QMatrix.identity, QRectF.right, QRectF.top, QRectF.width,
    QRectF.height]
  norm_num
  ring

theorem determinant_rotation_180 (box r : QRectF) :
    (createPagePointToDevicePointMatrix ⟨PageRotation.Rotate180, box⟩ r).determinant =
      (r.w / box.w) * (r.h / box.h) := by
  simp only [createPagePointToDevicePointMatrix, QMatrix.determinant, QMatrix.scale,
    QMatrix.translate, QMatrix.identity, QRectF.left, QRectF.top, QRectF.width,
    QRectF.height]
  ring

/-- C11 (the code at the failing input): for `Rotate180`, the page box 1 by 1
and the target rectangle 1 by 1 the linear part of the derived matrix is the
identity, of determinant `1`: it is not orientation-reversing, whereas the
matrices of `None`, `Rotate90` and `Rotate270` for the same input have
determinant `-1`. -/
theorem determinant_rotate180_positive :
    (createPagePointToDevicePointMatrix ⟨PageRotation.Rotate180, ⟨0, 0, 1, 1⟩⟩
      ⟨0, 0, 1, 1⟩).determinant = 1 ∧
    (createPagePointToDevicePointMatrix ⟨PageRotation.None, ⟨0, 0, 1, 1⟩⟩
      ⟨0, 0, 1, 1⟩).determinant = -1 ∧
    (createPagePointToDevicePointMatrix ⟨PageRotation.Rotate90, ⟨0, 0, 1, 1⟩⟩
      ⟨0, 0, 1, 1⟩).determinant = -1 ∧
    (createPagePointToDevicePointMatrix ⟨PageRotation.Rotate270, ⟨0, 0, 1, 1⟩⟩
      ⟨0, 0, 1, 1⟩).determinant = -1 := by
  rw [determinant_rotation_180, determinant_rotation_none, determinant_rotation_90,
    determinant_rotation_270]
  norm_num

/-- C12 (amended): for every rotation state, every target rectangle with
non-zero width `w` and height `h` and every page box with non-zero width `mw`
and height `mh`, the absolute value of the determinant of the linear part of
the derived matrix is the absolute value of `(w/mw)*(h/mh)`, and the
determinant is not zero: the matrix is invertible. -/
theorem determinant_abs (page : PDFPage) (rectangle : QRectF)
    (hw : rectangle.width ≠ 0) (hh : rectangle.height ≠ 0)
    (hmw : page.rotatedMediaBox.width ≠ 0) (hmh : page.rotatedMediaBox.height ≠ 0) :
    |(createPagePointToDevicePointMatrix page rectangle).determinant| =
        |(rectangle.width / page.rotatedMediaBox.width) *
          (rectangle.height / page.rotatedMediaBox.height)| ∧
      (createPagePointToDevicePointMatrix page rectangle).determinant ≠ 0 := by
  obtain ⟨rotation, box⟩ := page
  simp only [QRectF.width, QRectF.height] at hw hh hmw hmh ⊢
  have hne : (rectangle.w / box.w) * (rectangle.h / box.h) ≠ 0 :=
    mul_ne_zero (div_ne_zero hw hmw) (div_ne_zero hh hmh)
  cases rotation with
  | None =>
    rw [determinant_rotation_none, abs_neg]
    exact ⟨rfl, neg_ne_zero.2 hne⟩
  | Rotate90 =>
    rw [determinant_rotation_90, abs_neg]
    exact ⟨rfl, neg_ne_zero.2 hne⟩
  | Rotate180 =>
    rw [determinant_rotation_180]
    exact ⟨rfl, hne⟩
  | Rotate270 =>
    rw [determinant_rotation_270, abs_neg]
    exact ⟨rfl, neg_ne_zero.2 hne⟩

/-- C12 (witness): a page box of 3 by 5, rotated by 90 degrees, and the target
rectangle at (10, 20) of width 7 and height 9. -/
theorem determinant_abs_witness :
    |(createPagePointToDevicePointMatrix ⟨PageRotation.Rotate90, ⟨0, 0, 3, 5⟩⟩
        ⟨10, 20, 7, 9⟩).determinant| =
        |(QRectF.width ⟨10, 20, 7, 9⟩ / QRectF.width ⟨0, 0, 3, 5⟩) *
          (QRectF.height ⟨10, 20, 7, 9⟩ / QRectF.height ⟨0, 0, 3, 5⟩)| ∧
      (createPagePointToDevicePointMatrix ⟨PageRotation.Rotate90, ⟨0, 0, 3, 5⟩⟩
        ⟨10, 20, 7, 9⟩).determinant ≠ 0 :=
  determinant_abs ⟨PageRotation.Rotate90, ⟨0, 0, 3, 5⟩⟩ ⟨10, 20, 7, 9⟩
    (by norm_num [QRectF.width]) (by norm_num [QRectF.height])
    (by norm_num [QRectF.width]) (by norm_num [QRectF.height])

/-- C12 (counterexample): without rotation, for the page box 1 by 1 and the
target rectangle of width `-1` and height `1` (all non-zero), the determinant is
`1`, so its absolute value `1` is not `(w/mw)*(h/mh) = -1`. -/
theorem determinant_abs_counterexample :
    QRectF.width ⟨0, 0, -1, 1⟩ ≠ 0 ∧ QRectF.height ⟨0, 0, -1, 1⟩ ≠ 0 ∧
    |(createPagePointToDevicePointMatrix ⟨PageRotation.None, ⟨0, 0, 1, 1⟩⟩
        ⟨0, 0, -1, 1⟩).determinant| = 1 ∧
    (QRectF.width ⟨0, 0, -1, 1⟩ / QRectF.width ⟨0, 0, 1, 1⟩) *
      (QRectF.height ⟨0, 0, -1, 1⟩ / QRectF.height ⟨0, 0, 1, 1⟩) = -1 := by
  rw [determinant_rotation_none]
  norm_num [QRectF.width, QRectF.height]

/-! ## Claims on the rasterizer -/

theorem releaseOpenGL_consistent (s s1 : PDFRasterizer) (hs : s.Consistent)
    (h : s.releaseOpenGL = some s1) : s1.Consistent := by
  unfold PDFRasterizer.releaseOpenGL at h
  split_ifs at h with h1 h2
  · simp only [Option.some.injEq] at h
    subst h
    intro hv
    simp at hv
  · simp only [Option.some.injEq] at h
    subst h
    exact hs

theorem initializeOpenGL_result (s : PDFRasterizer) (o : InitializeOutcome) :
    s.initializeOpenGL o =
      if o.contextCreated = true ∧ o.surfaceValid = true then
        if o.madeCurrent = true then
          some { s with
            m_features := ⟨s.m_features.UseOpenGL, true, false⟩
            m_context := true
            m_surface := true }
        else
          some { s with
            m_features := ⟨s.m_features.UseOpenGL, false, true⟩
            m_context := false
            m_surface := false
            m_fbo := none }
      else none := by
  obtain ⟨c, v, m⟩ := o
  cases c <;> cases v <;> cases m <;>
    simp [PDFRasterizer.initializeOpenGL, PDFRasterizer.releaseOpenGL]

theorem initializeOpenGL_consistent (s s1 : PDFRasterizer) (o : InitializeOutcome)
    (h : s.initializeOpenGL o = some s1) : s1.Consistent := by
  rw [initializeOpenGL_result] at h
  split_ifs at h <;> simp only [Option.some.injEq] at h <;> subst h <;>
    simp [PDFRasterizer.Consistent]

theorem initializeOpenGL_config (s s1 : PDFRasterizer) (o : InitializeOutcome)
    (h : s.initializeOpenGL o = some s1) :
    s1.m_features.UseOpenGL = s.m_features.UseOpenGL ∧ s1.m_surfaceFormat = s.m_surfaceFormat := by
  rw [initializeOpenGL_result] at h
  split_ifs at h <;> simp only [Option.some.injEq] at h <;> subst h <;> simp

theorem reset_consistent (s s1 : PDFRasterizer) (useOpenGL : Bool) (surfaceFormat : QSurfaceFormat)
    (o : InitializeOutcome) (hs : s.Consistent) (h : s.reset useOpenGL surfaceFormat o = some s1) :
    s1.Consistent := by
  unfold PDFRasterizer.reset at h
  split_ifs at h with hc
  · cases hr : s.releaseOpenGL with
    | none => simp [hr] at h
    | some s2 =>
      have hcons := releaseOpenGL_consistent s s2 hs hr
      simp only [hr] at h
      split_ifs at h with hi
      · exact initializeOpenGL_consistent _ _ _ h
      · simp only [Option.some.injEq] at h
        subst h
        exact hcons
  · simp only [Option.some.injEq] at h
    subst h
    exact hs

theorem reset_config (s s1 : PDFRasterizer) (useOpenGL : Bool) (surfaceFormat : QSurfaceFormat)
    (o : InitializeOutcome) (h : s.reset useOpenGL surfaceFormat o = some s1) :
    s1.m_features.UseOpenGL = useOpenGL ∧ s1.m_surfaceFormat = surfaceFormat := by
  unfold PDFRasterizer.reset at h
  split_ifs at h with hc
  · cases hr : s.releaseOpenGL with
    | none => simp [hr] at h
    | some s2 =>
      simp only [hr] at h
      split_ifs at h with hi
      · have := initializeOpenGL_config _ _ _ h
        simpa using this
      · simp only [Option.some.injEq] at h
        subst h
        simp
  · simp only [Option.some.injEq] at h
    subst h
    simp only [ne_eq, not_or, not_not] at hc
    exact ⟨hc.1.symm, hc.2.symm⟩

theorem ensureFramebuffer_fields (s : PDFRasterizer) (size : Int × Int) :
    (s.ensureFramebuffer size).m_features = s.m_features ∧
      (s.ensureFramebuffer size).m_surface = s.m_surface ∧
      (s.ensureFramebuffer size).m_context = s.m_context ∧
      (s.ensureFramebuffer size).m_surfaceFormat = s.m_surfaceFormat := by
  unfold PDFRasterizer.ensureFramebuffer
  split
  · simp
  · split_ifs <;> simp

theorem render_state (s : PDFRasterizer) (pageIndex : Int) (page : PDFPage)
    (cropBox : QRectF) (compiledPage : PDFPrecompiledPage) (size : Int × Int) (features : Nat)
    (annotationManager : Bool) (o : RenderOutcome) :
    (s.render pageIndex page cropBox compiledPage size features annotationManager o).map
        (fun r => r.1) =
      if s.m_features.UseOpenGL = true ∧ s.m_features.ValidOpenGL = true then
        if s.m_context = false then none
        else if o.madeCurrent = true then
          if o.fboValid = true ∧ o.fboBound = true then some (s.ensureFramebuffer size)
          else
            some { s.ensureFramebuffer size with
              m_features := { (s.ensureFramebuffer size).m_features with
                FailedOpenGL := true, ValidOpenGL := false } }
        else some s
      else some s := by
  obtain ⟨⟨u, v, f⟩, fmt, surf, ctx, fbo⟩ := s
  obtain ⟨mc, fv, fb, rb, al⟩ := o
  cases u <;> cases v <;> cases ctx <;> cases mc <;> cases fv <;> cases fb <;>
    simp [PDFRasterizer.render, PDFRasterizer.renderOpenGL]

theorem render_consistent (s s1 : PDFRasterizer) (pageIndex : Int) (page : PDFPage)
    (cropBox : QRectF) (compiledPage : PDFPrecompiledPage) (size : Int × Int) (features : Nat)
    (annotationManager : Bool) (o : RenderOutcome) (image : QImage) (hs : s.Consistent)
    (h : s.render pageIndex page cropBox compiledPage size features annotationManager o =
      some (s1, image)) : s1.Consistent := by
  have hst := render_state s pageIndex page cropBox compiledPage size features
    annotationManager o
  rw [h] at hst
  simp only [Option.map_some'] at hst
  have hf := ensureFramebuffer_fields s size
  split_ifs at hst <;> simp only [Option.some.injEq] at hst
  · subst hst
    unfold PDFRasterizer.Consistent at hs ⊢
    rw [hf.1, hf.2.1]
    exact hs
  · subst hst
    intro hv
    simp at hv
  · subst hst
    exact hs
  · subst hst
    exact hs

theorem run_consistent : ∀ (calls : List RasterizerCall) (s s1 : PDFRasterizer),
    s.Consistent → s.run calls = some s1 → s1.Consistent
  | [], s, s1, hs, h => by
    simp only [PDFRasterizer.run, Option.some.injEq] at h
    subst h
    exact hs
  | c :: cs, s, s1, hs, h => by
    unfold PDFRasterizer.run at h
    cases hc : s.call c with
    | none => simp [hc] at h
    | some s2 =>
      simp only [hc] at h
      refine run_consistent cs s2 s1 ?_ h
      cases c with
      | reset useOpenGL surfaceFormat o =>
        exact reset_consistent s s2 useOpenGL surfaceFormat o hs hc
      | render pageIndex page cropBox compiledPage size features annotationManager o =>
        simp only [PDFRasterizer.call, Option.map_eq_some'] at hc
        obtain ⟨⟨s3, image⟩, hr, he⟩ := hc
        simp only at he
        subst he
        exact render_consistent s s3 pageIndex page cropBox compiledPage size features
          annotationManager o image hs hr

/-- C14: in every state of a rasterizer reached from its construction by a
sequence of `reset` and `render` calls, whatever the OpenGL calls return, the
flags `ValidOpenGL` and `FailedOpenGL` are not both set. -/
theorem valid_and_failed_exclusive (calls : List RasterizerCall) (s : PDFRasterizer)
    (h : PDFRasterizer.create.run calls = some s) :
    ¬ (s.m_features.ValidOpenGL = true ∧ s.m_features.FailedOpenGL = true) := by
  have hc : s.Consistent :=
    run_consistent calls PDFRasterizer.create s (by simp [PDFRasterizer.Consistent,
      PDFRasterizer.create]) h
  rintro ⟨hv, hf⟩
  have := (hc hv).2
  rw [hf] at this
  exact absurd this (by simp)

/-- C14 (witness): a successful `reset` followed by a `render` whose
framebuffer is invalid leads to a state with `FailedOpenGL` and without
`ValidOpenGL`. -/
theorem valid_and_failed_exclusive_witness :
    PDFRasterizer.create.run
        [RasterizerCall.reset true ⟨4, 1⟩ ⟨true, true, true⟩,
          RasterizerCall.render 0 smallPage ⟨0, 0, 3, 5⟩ blankCompiledPage (30, 50) 0 false
            ⟨true, false, false, none, true⟩] =
      some ⟨⟨true, false, true⟩, ⟨4, 1⟩, true, true, some (30, 50)⟩ ∧
    ¬ ((PDFRasterizer.mk ⟨true, false, true⟩ ⟨4, 1⟩ true true
        (some (30, 50))).m_features.ValidOpenGL = true ∧
      (PDFRasterizer.mk ⟨true, false, true⟩ ⟨4, 1⟩ true true
        (some (30, 50))).m_features.FailedOpenGL = true) :=
  have h : PDFRasterizer.create.run
      [RasterizerCall.reset true ⟨4, 1⟩ ⟨true, true, true⟩,
        RasterizerCall.render 0 smallPage ⟨0, 0, 3, 5⟩ blankCompiledPage (30, 50) 0 false
          ⟨true, false, false, none, true⟩] =
      some ⟨⟨true, false, true⟩, ⟨4, 1⟩, true, true, some (30, 50)⟩ := by
    simp [PDFRasterizer.run, PDFRasterizer.call, PDFRasterizer.create, PDFRasterizer.reset,
      PDFRasterizer.releaseOpenGL, initializeOpenGL_result, PDFRasterizer.render,
      PDFRasterizer.renderOpenGL, PDFRasterizer.ensureFramebuffer]
  ⟨h, valid_and_failed_exclusive _ _ h⟩

/-- C15: `reset` with the configuration that is stored changes nothing, and
`reset(c)` followed by `reset(c)` leaves the state of a single `reset(c)`,
whatever the OpenGL calls return. -/
theorem reset_idempotent (s : PDFRasterizer) (useOpenGL : Bool) (surfaceFormat : QSurfaceFormat)
    (o1 o2 : InitializeOutcome) :
    s.reset s.m_features.UseOpenGL s.m_surfaceFormat o1 = some s ∧
      (s.reset useOpenGL surfaceFormat o1).bind
          (fun s1 => s1.reset useOpenGL surfaceFormat o2) =
        s.reset useOpenGL surfaceFormat o1 := by
  constructor
  · simp [PDFRasterizer.reset]
  · cases h : s.reset useOpenGL surfaceFormat o1 with
    | none => rfl
    | some s1 =>
      have hc := reset_config s s1 useOpenGL surfaceFormat o1 h
      simp [PDFRasterizer.reset, hc.1, hc.2]

/-- C17 (the code at the failing input): when the creation of the context
fails, or when the offscreen surface is invalid, `initializeOpenGL` goes on to
call `m_context->makeCurrent(m_surface)` through the null `m_context`: the call
has no defined result, for every state and whatever the other outcomes are. Only
the failure of the trial `makeCurrent` ends in the Failed state. -/
theorem initializeOpenGL_null_context (s : PDFRasterizer) (surfaceValid madeCurrent : Bool) :
    s.initializeOpenGL ⟨false, surfaceValid, madeCurrent⟩ = none ∧
    s.initializeOpenGL ⟨true, false, madeCurrent⟩ = none ∧
    PDFRasterizer.create.reset true ⟨4, 1⟩ ⟨false, true, true⟩ = none ∧
    s.initializeOpenGL ⟨true, true, false⟩ =
      some { s with
        m_features := ⟨s.m_features.UseOpenGL, false, true⟩
        m_context := false
        m_surface := false
        m_fbo := none } := by
  refine ⟨?_, ?_, ?_, ?_⟩
  · rw [initializeOpenGL_result]
    simp
  · rw [initializeOpenGL_result]
    simp
  · decide
  · rw [initializeOpenGL_result]
    simp

/-- C18 (amended): a `render` call made in the Valid state (OpenGL requested
and valid, context present) in which the context is made current and the
framebuffer is invalid or fails to bind returns, and ends with `FailedOpenGL` set
and `ValidOpenGL` clear; the image it returns is the one of the software path:
for a size of positive width and height whose buffer is allocated, the
premultiplied buffer of the requested size, filled with white, on which the
compiled page is drawn with the crop box, the page-to-device matrix of the size
and the features of the call, followed with an annotation manager by the page
of the annotations under the same matrix; the null image for an empty size or a
failed allocation. -/
theorem render_framebuffer_failure (s : PDFRasterizer) (pageIndex : Int) (page : PDFPage)
    (cropBox : QRectF) (compiledPage : PDFPrecompiledPage) (size : Int × Int) (features : Nat)
    (annotationManager : Bool) (o : RenderOutcome)
    (huse : s.m_features.UseOpenGL = true) (hvalid : s.m_features.ValidOpenGL = true)
    (hctx : s.m_context = true) (hcur : o.madeCurrent = true)
    (hfbo : o.fboValid = false ∨ o.fboBound = false) :
    ∃ s1, s.render pageIndex page cropBox compiledPage size features annotationManager o =
        some (s1,
          if 0 < size.1 ∧ 0 < size.2 ∧ o.imageAllocated = true then
            some ⟨size.1, size.2, ImageFormat.Format_ARGB32_Premultiplied,
              PaintOp.fill white ::
                PaintOp.draw compiledPage cropBox
                  (createPagePointToDevicePointMatrix page ⟨0, 0, size.1, size.2⟩) features ::
                (if annotationManager = true then
                  [PaintOp.drawPage pageIndex compiledPage
                    (createPagePointToDevicePointMatrix page ⟨0, 0, size.1, size.2⟩)]
                else [])⟩
          else none) ∧
      s1.m_features.FailedOpenGL = true ∧ s1.m_features.ValidOpenGL = false := by
  refine ⟨{ s.ensureFramebuffer size with
    m_features := { (s.ensureFramebuffer size).m_features with
      FailedOpenGL := true, ValidOpenGL := false } }, ?_, rfl, rfl⟩
  · have hb : (o.fboValid && o.fboBound) = false := by
      rcases hfbo with h | h <;> simp [h]
    unfold PDFRasterizer.render PDFRasterizer.renderOpenGL
    simp only [huse, hvalid, hctx, hcur, hb, and_self, if_true, Bool.true_eq_false, if_false,
      Bool.false_eq_true]
    by_cases hs : 0 < size.1 ∧ 0 < size.2 ∧ o.imageAllocated = true
    · obtain ⟨h1, h2, h3⟩ := hs
      have hn : ¬ (size.1 ≤ 0 ∨ size.2 ≤ 0) := by omega
      simp [h1, h2, h3, hn, softwareFallback, toPremultiplied, QImage.ofSize, QImage.paint,
        QImage.format, drawCalls]
    · have hn : size.1 ≤ 0 ∨ size.2 ≤ 0 ∨ o.imageAllocated = false := by
        by_contra hc
        apply hs
        simp only [not_or, not_le, Bool.not_eq_false] at hc
        exact hc
      simp only [softwareFallback, Option.isNone_none, if_true, QImage.ofSize, hn,
        QImage.paint, Option.map_none', toPremultiplied, QImage.format, QImage.convertTo, hs,
        if_false]
      simp

/-- C18 (witness): the Valid rasterizer, a page rendered at 30 by 50 with an
invalid framebuffer and an annotation manager. -/
theorem render_framebuffer_failure_witness :
    ∃ s1, validRasterizer.render 0 smallPage ⟨0, 0, 3, 5⟩ blankCompiledPage (30, 50) 0 true
          ⟨true, false, true, none, true⟩ =
        some (s1,
          if (0 : Int) < (30, 50).1 ∧ (0 : Int) < (30, 50).2 ∧
              (⟨true, false, true, none, true⟩ : RenderOutcome).imageAllocated = true then
            some ⟨(30, 50).1, (30, 50).2, ImageFormat.Format_ARGB32_Premultiplied,
              PaintOp.fill white ::
                PaintOp.draw blankCompiledPage ⟨0, 0, 3, 5⟩
                  (createPagePointToDevicePointMatrix smallPage
                    ⟨0, 0, ((30, 50) : Int × Int).1, ((30, 50) : Int × Int).2⟩) 0 ::
                (if true = true then
                  [PaintOp.drawPage 0 blankCompiledPage
                    (createPagePointToDevicePointMatrix smallPage
                      ⟨0, 0, ((30, 50) : Int × Int).1, ((30, 50) : Int × Int).2⟩)]
                else [])⟩
          else none) ∧
      s1.m_features.FailedOpenGL = true ∧ s1.m_features.ValidOpenGL = false :=
  render_framebuffer_failure validRasterizer 0 smallPage ⟨0, 0, 3, 5⟩ blankCompiledPage (30, 50)
    0 true ⟨true, false, true, none, true⟩ rfl rfl rfl rfl (Or.inl rfl)

/-- C18 (counterexample): in the Valid state with an invalid framebuffer, the
image returned for the size 30 by 50 is the null image when the buffer of the
software image cannot be allocated, and so is the image returned for the empty
size 0 by 0: neither is a buffer of the requested size filled and drawn. -/
theorem render_framebuffer_failure_counterexample :
    (validRasterizer.render 0 smallPage ⟨0, 0, 3, 5⟩ blankCompiledPage (30, 50) 0 true
        ⟨true, false, true, none, false⟩).map (fun r => r.2) = some none ∧
    (validRasterizer.render 0 smallPage ⟨0, 0, 3, 5⟩ blankCompiledPage (0, 0) 0 true
        ⟨true, false, true, none, true⟩).map (fun r => r.2) = some none := by
  constructor <;>
    simp [PDFRasterizer.render, PDFRasterizer.renderOpenGL, validRasterizer, softwareFallback,
      toPremultiplied, QImage.ofSize, QImage.paint, QImage.format, QImage.convertTo]

theorem toPremultiplied_format (image : QImage) (h : image ≠ none) :
    QImage.format (toPremultiplied image) = ImageFormat.Format_ARGB32_Premultiplied := by
  cases image with
  | none => exact absurd rfl h
  | some d =>
    unfold toPremultiplied
    split_ifs with hf
    · rfl
    · exact not_not.1 hf

theorem softwareFallback_ne_none (size : Int × Int) (calls : List PaintOp) (image : QImage)
    (hw : 0 < size.1) (hh : 0 < size.2) : softwareFallback size calls true image ≠ none := by
  have hn : ¬ (size.1 ≤ 0 ∨ size.2 ≤ 0) := by omega
  cases image with
  | none => simp [softwareFallback, QImage.ofSize, QImage.paint, hn]
  | some d => simp [softwareFallback]

/-- C19 (amended): every `render` call with a target size of positive width
and height for which the buffer of the software image can be allocated, on a
rasterizer whose context is present when OpenGL is requested and valid, returns
an image whose pixel format is `Format_ARGB32_Premultiplied`, whichever path
produced the pixels and whatever format the read-back had. -/
theorem render_format_premultiplied (s : PDFRasterizer) (pageIndex : Int) (page : PDFPage)
    (cropBox : QRectF) (compiledPage : PDFPrecompiledPage) (size : Int × Int) (features : Nat)
    (annotationManager : Bool) (o : RenderOutcome)
    (hw : 0 < size.1) (hh : 0 < size.2) (halloc : o.imageAllocated = true)
    (hctx : s.m_features.UseOpenGL = true → s.m_features.ValidOpenGL = true →
      s.m_context = true) :
    ∃ s1 image,
      s.render pageIndex page cropBox compiledPage size features annotationManager o =
        some (s1, image) ∧
      QImage.format image = ImageFormat.Format_ARGB32_Premultiplied := by
  have hacc : ∃ s2 image0, s.renderOpenGL compiledPage size
      (drawCalls pageIndex cropBox compiledPage
        (createPagePointToDevicePointMatrix page ⟨0, 0, size.1, size.2⟩) features
        annotationManager) o = some (s2, image0) := by
    unfold PDFRasterizer.renderOpenGL
    by_cases hu : s.m_features.UseOpenGL = true ∧ s.m_features.ValidOpenGL = true
    · have hc := hctx hu.1 hu.2
      simp only [hu, and_self, if_true, hc, Bool.true_eq_false, if_false]
      split_ifs <;> exact ⟨_, _, rfl⟩
    · simp only [hu, if_false]
      exact ⟨_, _, rfl⟩
  obtain ⟨s2, image0, hacc⟩ := hacc
  have hr : s.render pageIndex page cropBox compiledPage size features annotationManager o =
      some (s2, toPremultiplied (softwareFallback size
        (drawCalls pageIndex cropBox compiledPage
          (createPagePointToDevicePointMatrix page ⟨0, 0, size.1, size.2⟩) features
          annotationManager) true image0)) := by
    simp only [PDFRasterizer.render, hacc, halloc]
  exact ⟨s2, _, hr, toPremultiplied_format _ (softwareFallback_ne_none size _ image0 hw hh)⟩

/-- C19 (witness): the Valid rasterizer whose read-back has the format
`Format_ARGB32`. -/
theorem render_format_premultiplied_witness :
    ∃ s1 image,
      validRasterizer.render 0 smallPage ⟨0, 0, 3, 5⟩ blankCompiledPage (30, 50) 0 true
          ⟨true, true, true, some ImageFormat.Format_ARGB32, true⟩ =
        some (s1, image) ∧
      QImage.format image = ImageFormat.Format_ARGB32_Premultiplied :=
  render_format_premultiplied validRasterizer 0 smallPage ⟨0, 0, 3, 5⟩ blankCompiledPage
    (30, 50) 0 true ⟨true, true, true, some ImageFormat.Format_ARGB32, true⟩ (by decide)
    (by decide) rfl (fun _ _ => rfl)

/-- C19 (counterexample): for the empty target size 0 by 0 the software path
builds the null image, which `convertTo` leaves as it is: the returned image
has the format `Format_Invalid`. The same holds for the size 30 by 50 when the
buffer of the software image cannot be allocated. -/
theorem render_format_counterexample :
    PDFRasterizer.create.render 0 smallPage ⟨0, 0, 3, 5⟩ blankCompiledPage (0, 0) 0 false
        ⟨true, true, true, none, true⟩ = some (PDFRasterizer.create, none) ∧
    PDFRasterizer.create.render 0 smallPage ⟨0, 0, 3, 5⟩ blankCompiledPage (30, 50) 0 false
        ⟨true, true, true, none, false⟩ = some (PDFRasterizer.create, none) ∧
    QImage.format none = ImageFormat.Format_Invalid ∧
    ImageFormat.Format_Invalid ≠ ImageFormat.Format_ARGB32_Premultiplied := by
  refine ⟨?_, ?_, rfl, by decide⟩ <;>
    simp [PDFRasterizer.render, PDFRasterizer.renderOpenGL, PDFRasterizer.create,
      softwareFallback, toPremultiplied, QImage.ofSize, QImage.paint, QImage.format,
      QImage.convertTo]

/-! ## Claims on the rasterizer pool -/

theorem sum_map_set (f : PoolThread → Nat) :
    ∀ (l : List PoolThread) (t : Nat) (a b : PoolThread), l[t]? = some a →
      ((l.set t b).map f).sum + f a = (l.map f).sum + f b
  | [], t, a, b, h => by simp at h
  | x :: xs, 0, a, b, h => by
    have hx : x = a := by simpa using h
    subst hx
    simp only [List.set_cons_zero, List.map_cons, List.sum_cons]
    omega
  | x :: xs, t + 1, a, b, h => by
    have h2 : xs[t]? = some a := by simpa using h
    have ih := sum_map_set f xs t a b h2
    simp only [List.set_cons_succ, List.map_cons, List.sum_cons]
    omega

theorem sum_map_ge (f : PoolThread → Nat) :
    ∀ (l : List PoolThread) (t : Nat) (a : PoolThread), l[t]? = some a → f a ≤ (l.map f).sum
  | [], t, a, h => by simp at h
  | x :: xs, 0, a, h => by
    have hx : x = a := by simpa using h
    subst hx
    simp only [List.map_cons, List.sum_cons]
    omega
  | x :: xs, t + 1, a, h => by
    have h2 : xs[t]? = some a := by simpa using h
    have ih := sum_map_ge f xs t a h2
    simp only [List.map_cons, List.sum_cons]
    omega

theorem sum_map_replicate_outside (f : PoolThread → Nat) (hf : f PoolThread.outside = 0) :
    ∀ n : Nat, ((List.replicate n PoolThread.outside).map f).sum = 0
  | 0 => rfl
  | n + 1 => by
    simp only [List.replicate_succ, List.map_cons, List.sum_cons, hf,
      sum_map_replicate_outside f hf n]

theorem create_invariant (K n : Nat) : (PDFRasterizerPool.create K n).Invariant K := by
  unfold PDFRasterizerPool.Invariant PDFRasterizerPool.create
  simp only [sum_map_replicate_outside PoolThread.waiting rfl,
    sum_map_replicate_outside PoolThread.held rfl,
    sum_map_replicate_outside PoolThread.pushing rfl, List.length_range]
  omega

theorem step_invariant (K : Nat) (pool pool1 : PDFRasterizerPool) (st : PoolStep)
    (hinv : pool.Invariant K) (h : pool.step st = some pool1) : pool1.Invariant K := by
  obtain ⟨h0, h1, h2⟩ := hinv
  cases st with
  | semaphoreAcquire t =>
    simp only [PDFRasterizerPool.step] at h
    split_ifs at h with hc
    simp only [Option.some.injEq] at h
    subst h
    have ew := sum_map_set PoolThread.waiting pool.threads t _ PoolThread.passedSemaphore hc.1
    have eh := sum_map_set PoolThread.held pool.threads t _ PoolThread.passedSemaphore hc.1
    have eq := sum_map_set PoolThread.pushing pool.threads t _ PoolThread.passedSemaphore hc.1
    simp only [PoolThread.waiting, PoolThread.held, PoolThread.pushing] at ew eh eq
    have hpos := hc.2
    refine ⟨?_, ?_, ?_⟩ <;> simp only <;> omega
  | popBack t =>
    simp only [PDFRasterizerPool.step] at h
    split_ifs at h with hc
    cases hl : pool.m_rasterizers.getLast? with
    | none => simp [hl] at h
    | some r =>
      simp only [hl, Option.some.injEq] at h
      subst h
      have hne : pool.m_rasterizers ≠ [] := by
        intro he
        rw [he] at hl
        simp at hl
      have hlen : 0 < pool.m_rasterizers.length := List.length_pos.2 hne
      have ew := sum_map_set PoolThread.waiting pool.threads t _ (PoolThread.holding r) hc.1
      have eh := sum_map_set PoolThread.held pool.threads t _ (PoolThread.holding r) hc.1
      have eq := sum_map_set PoolThread.pushing pool.threads t _ (PoolThread.holding r) hc.1
      simp only [PoolThread.waiting, PoolThread.held, PoolThread.pushing] at ew eh eq
      refine ⟨?_, ?_, ?_⟩ <;> simp only [List.length_dropLast] <;> omega
  | pushBack t =>
    simp only [PDFRasterizerPool.step] at h
    split at h
    · rename_i r ht
      split_ifs at h
      simp only [Option.some.injEq] at h
      subst h
      have ew := sum_map_set PoolThread.waiting pool.threads t _ (PoolThread.pushedBack r) ht
      have eh := sum_map_set PoolThread.held pool.threads t _ (PoolThread.pushedBack r) ht
      have eq := sum_map_set PoolThread.pushing pool.threads t _ (PoolThread.pushedBack r) ht
      simp only [PoolThread.waiting, PoolThread.held, PoolThread.pushing] at ew eh eq
      refine ⟨?_, ?_, ?_⟩ <;> simp only [List.length_append, List.length_singleton] <;> omega
    · simp at h
  | semaphoreRelease t =>
    simp only [PDFRasterizerPool.step] at h
    split at h
    · rename_i r ht
      simp only [Option.some.injEq] at h
      subst h
      have ew := sum_map_set PoolThread.waiting pool.threads t _ PoolThread.outside ht
      have eh := sum_map_set PoolThread.held pool.threads t _ PoolThread.outside ht
      have eq := sum_map_set PoolThread.pushing pool.threads t _ PoolThread.outside ht
      simp only [PoolThread.waiting, PoolThread.held, PoolThread.pushing] at ew eh eq
      refine ⟨?_, ?_, ?_⟩ <;> simp only <;> omega
    · simp at h

theorem run_invariant (K : Nat) : ∀ (steps : List PoolStep) (pool pool1 : PDFRasterizerPool),
    pool.Invariant K → pool.run steps = some pool1 → pool1.Invariant K
  | [], pool, pool1, hinv, h => by
    simp only [PDFRasterizerPool.run, Option.some.injEq] at h
    subst h
    exact hinv
  | st :: sts, pool, pool1, hinv, h => by
    unfold PDFRasterizerPool.run at h
    cases hs : pool.step st with
    | none => simp [hs] at h
    | some pool2 =>
      simp only [hs] at h
      exact run_invariant K sts pool2 pool1 (step_invariant K pool pool2 st hinv hs) h

/-- C13: for a pool constructed with `K` rasterizers, any number of threads
and every interleaving of the atomic steps of `acquire` and `release` in which a
thread releases the rasterizer it holds, the semaphore count stays within
`[0, K]`, the idle and the acquired rasterizers add up to `K`, and the idle
vector is not empty when a thread is about to perform the removal of `acquire`. -/
theorem pool_invariant (K threadCount : Nat) (steps : List PoolStep) (pool : PDFRasterizerPool)
    (h : (PDFRasterizerPool.create K threadCount).run steps = some pool) :
    0 ≤ pool.m_semaphore ∧ pool.m_semaphore ≤ K ∧
      pool.m_rasterizers.length + pool.acquiredCount = K ∧
      ∀ t : Nat, pool.threads[t]? = some PoolThread.passedSemaphore → pool.m_rasterizers ≠ [] := by
  obtain ⟨h0, h1, h2⟩ := run_invariant K steps _ pool (create_invariant K threadCount) h
  refine ⟨h0, by omega, h2, fun t ht => ?_⟩
  have hw := sum_map_ge PoolThread.waiting pool.threads t _ ht
  simp only [PoolThread.waiting] at hw
  intro he
  rw [he] at h2
  simp only [List.length_nil] at h2
  omega

/-- C13 (witness): two rasterizers and three threads; two threads pass the
semaphore, one of them removes a rasterizer and gives it back. -/
theorem pool_invariant_witness :
    (PDFRasterizerPool.create 2 3).run
        [PoolStep.semaphoreAcquire 0, PoolStep.semaphoreAcquire 2, PoolStep.popBack 2,
          PoolStep.pushBack 2, PoolStep.semaphoreRelease 2] =
      some ⟨1, [0, 1], [PoolThread.passedSemaphore, PoolThread.outside, PoolThread.outside]⟩ ∧
    (0 ≤ (PDFRasterizerPool.mk 1 [0, 1]
        [PoolThread.passedSemaphore, PoolThread.outside, PoolThread.outside]).m_semaphore ∧
      (PDFRasterizerPool.mk 1 [0, 1]
        [PoolThread.passedSemaphore, PoolThread.outside, PoolThread.outside]).m_semaphore ≤
          (2 : Nat) ∧
      (PDFRasterizerPool.mk 1 [0, 1]
        [PoolThread.passedSemaphore, PoolThread.outside, PoolThread.outside]).m_rasterizers.length +
        (PDFRasterizerPool.mk 1 [0, 1]
          [PoolThread.passedSemaphore, PoolThread.outside, PoolThread.outside]).acquiredCount = 2 ∧
      ∀ t : Nat, (PDFRasterizerPool.mk 1 [0, 1]
          [PoolThread.passedSemaphore, PoolThread.outside, PoolThread.outside]).threads[t]? =
            some PoolThread.passedSemaphore →
        (PDFRasterizerPool.mk 1 [0, 1]
          [PoolThread.passedSemaphore, PoolThread.outside, PoolThread.outside]).m_rasterizers ≠ []) :=
  ⟨by decide,
    pool_invariant 2 3
      [PoolStep.semaphoreAcquire 0, PoolStep.semaphoreAcquire 2, PoolStep.popBack 2,
        PoolStep.pushBack 2, PoolStep.semaphoreRelease 2]
      ⟨1, [0, 1], [PoolThread.passedSemaphore, PoolThread.outside, PoolThread.outside]⟩
      (by decide)⟩

theorem imageCallbacks_append (i : Int) (l1 l2 : List PoolEvent) :
    imageCallbacks i (l1 ++ l2) = imageCallbacks i l1 + imageCallbacks i l2 :=
  List.countP_append _ l1 l2

theorem errorEvents_append (l1 l2 : List PoolEvent) :
    errorEvents (l1 ++ l2) = errorEvents l1 + errorEvents l2 :=
  List.countP_append _ l1 l2

theorem imageCallbacks_renderErrors (i : Int) (g : PDFRenderError → PDFRenderError) :
    ∀ l : List PDFRenderError,
      imageCallbacks i (l.map (fun error => PoolEvent.renderError (g error))) = 0
  | [] => rfl
  | e :: l => by
    have ih := imageCallbacks_renderErrors i g l
    unfold imageCallbacks at ih ⊢
    simp only [List.map_cons, List.countP_cons, ih]
    simp

theorem imageCallbacks_progressStep (i : Int) (b : Bool) :
    imageCallbacks i (if b then [PoolEvent.progressStep] else []) = 0 := by
  cases b <;> simp [imageCallbacks]

theorem imageCallbacks_processPage (env : PoolEnvironment) (i j : Int) :
    imageCallbacks j (processPage env i) =
      if (env.getPage i).isSome ∧ i = j then 1 else 0 := by
  unfold processPage
  cases hp : env.getPage i with
  | none =>
    simp only [imageCallbacks_append, imageCallbacks_progressStep, Option.isSome_none,
      Bool.false_eq_true, false_and, if_false]
    simp [imageCallbacks]
  | some page =>
    simp only [imageCallbacks_append, imageCallbacks_progressStep,
      imageCallbacks_renderErrors j (fun error => ⟨error.type,
        "Page ".toList ++ number (i + 1) ++ ": ".toList ++ error.message⟩),
      Option.isSome_some, true_and]
    by_cases hij : i = j
    · simp [imageCallbacks, hij]
    · simp [imageCallbacks, hij]

theorem errorEvents_processPage_missing (env : PoolEnvironment) (i : Int)
    (h : env.getPage i = none) : errorEvents (processPage env i) = 1 := by
  unfold processPage
  rw [h]
  cases env.progress <;> simp [errorEvents]

theorem imageCallbacks_flatMap (env : PoolEnvironment) (j : Int) :
    ∀ l : List Int, imageCallbacks j (l.flatMap (processPage env)) =
      if (env.getPage j).isSome then l.count j else 0
  | [] => by simp [imageCallbacks]
  | i :: l => by
    have ih := imageCallbacks_flatMap env j l
    rw [List.flatMap_cons, imageCallbacks_append, ih, imageCallbacks_processPage,
      List.count_cons]
    by_cases hij : i = j
    · subst hij
      by_cases hp : (env.getPage i).isSome = true
      · simp [hp]
        omega
      · simp [hp]
    · have hne : (i == j) = false := by simpa using hij
      simp [hij, hne]

theorem errorEvents_flatMap (env : PoolEnvironment) :
    ∀ l : List Int, errorEvents (l.flatMap (processPage env)) =
      (l.map (fun i => errorEvents (processPage env i))).sum
  | [] => by simp [errorEvents]
  | i :: l => by
    rw [List.flatMap_cons, errorEvents_append, errorEvents_flatMap env l, List.map_cons,
      List.sum_cons]

theorem imageCallbacks_render (env : PoolEnvironment) (pageIndices : List Int) (i : Int) :
    imageCallbacks i (PDFRasterizerPool.render env pageIndices) =
      if (env.getPage i).isSome then pageIndices.count i else 0 := by
  unfold PDFRasterizerPool.render
  cases pageIndices with
  | nil => simp [imageCallbacks]
  | cons a l =>
    simp only [List.isEmpty_cons, Bool.false_eq_true, if_false, imageCallbacks_append,
      imageCallbacks_flatMap]
    cases env.progress <;> simp [imageCallbacks]

theorem errorEvents_render (env : PoolEnvironment) (pageIndices : List Int) :
    errorEvents (PDFRasterizerPool.render env pageIndices) =
      (pageIndices.map (fun i => errorEvents (processPage env i))).sum := by
  unfold PDFRasterizerPool.render
  cases pageIndices with
  | nil => simp [errorEvents]
  | cons a l =>
    simp only [List.isEmpty_cons, Bool.false_eq_true, if_false, errorEvents_append,
      errorEvents_flatMap]
    cases env.progress <;> simp [errorEvents]

/-- C20: in a batch render the pages are independent of each other. An index
whose page is missing produces exactly one Error event and no image callback;
an index whose page exists produces exactly one image callback, carrying that
index; and in the events of the whole batch, in whatever order they come, the
image callbacks that carry an index are as many as its occurrences in the
sequence when its page exists and none otherwise, and the Error events are
exactly those of the single pages. -/
theorem render_pages_independent (env : PoolEnvironment) (pageIndices : List Int) :
    (∀ i, env.getPage i = none →
      errorEvents (processPage env i) = 1 ∧ ∀ j, imageCallbacks j (processPage env i) = 0) ∧
    (∀ i, (env.getPage i).isSome = true →
      imageCallbacks i (processPage env i) = 1 ∧
        ∀ j, j ≠ i → imageCallbacks j (processPage env i) = 0) ∧
    (∀ trace, List.Perm trace (PDFRasterizerPool.render env pageIndices) →
      (∀ i, imageCallbacks i trace =
        if (env.getPage i).isSome then pageIndices.count i else 0) ∧
      errorEvents trace = (pageIndices.map (fun i => errorEvents (processPage env i))).sum) := by
  refine ⟨fun i h => ⟨errorEvents_processPage_missing env i h, fun j => ?_⟩,
    fun i h => ⟨?_, fun j hj => ?_⟩, fun trace hperm => ⟨fun i => ?_, ?_⟩⟩
  · rw [imageCallbacks_processPage, h]
    simp
  · rw [imageCallbacks_processPage, h]
    simp
  · rw [imageCallbacks_processPage]
    simp [Ne.symm hj]
  · unfold imageCallbacks
    rw [List.Perm.countP_eq _ hperm]
    exact imageCallbacks_render env pageIndices i
  · unfold errorEvents
    rw [List.Perm.countP_eq _ hperm]
    exact errorEvents_render env pageIndices

/-- C20 (witness): the batch `[0, 5, 1]` on a document whose page of index 5
is missing: one image callback for 0 and for 1, none for 5, and one Error event. -/
theorem render_pages_independent_witness :
    imageCallbacks 0 (PDFRasterizerPool.render exampleEnvironment [0, 5, 1]) = 1 ∧
    imageCallbacks 5 (PDFRasterizerPool.render exampleEnvironment [0, 5, 1]) = 0 ∧
    imageCallbacks 1 (PDFRasterizerPool.render exampleEnvironment [0, 5, 1]) = 1 ∧
    errorEvents (PDFRasterizerPool.render exampleEnvironment [0, 5, 1]) = 1 :=
  have h := (render_pages_independent exampleEnvironment [0, 5, 1]).2.2
    (PDFRasterizerPool.render exampleEnvironment [0, 5, 1]) (List.Perm.refl _)
  ⟨(h.1 0).trans (by decide), (h.1 5).trans (by decide), (h.1 1).trans (by decide),
    h.2.trans (by decide)⟩

/-! ## Claims on the empty batch, the renderer and the default count -/

/-- C21: `PDFRasterizerPool::render` called with an empty sequence of page
indices returns at once and does nothing to its surroundings: no event of any
kind (no image callback, no start, step or finish of the progress, no error or
information event, no `acquire` of a rasterizer). -/
theorem render_empty (env : PoolEnvironment) :
    PDFRasterizerPool.render env [] = [] ∧
      (∀ e, e ∉ PDFRasterizerPool.render env []) ∧
      (∀ i, imageCallbacks i (PDFRasterizerPool.render env []) = 0) ∧
      errorEvents (PDFRasterizerPool.render env []) = 0 := by
  have h : PDFRasterizerPool.render env [] = [] := by
    simp [PDFRasterizerPool.render]
  rw [h]
  exact ⟨rfl, fun e he => by simp at he, fun i => rfl, rfl⟩

theorem invalid_page_condition (catalog : PDFCatalog) (pageIndex : Nat)
    (h : pageIndex ≥ catalog.pageCount ∨ catalog.getPage pageIndex = none) :
    pageIndex ≥ catalog.pageCount ∨ (catalog.getPage pageIndex).isNone = true := by
  rcases h with h | h
  · exact Or.inl h
  · exact Or.inr (by simp [h])

/-- C22: for a page index that is not below the page count, or whose page is
missing, both `render` overloads return, and `compile` records on the compiled
page, exactly one error, of type Error, whose message names the page
`pageIndex + 1` (as `size_t` computes it) as not existing; no content is
processed, whatever the content processor is, and `compile` finalizes with the
compilation time 0. -/
theorem invalid_page_index (catalog : PDFCatalog) (processor : ContentProcessor)
    (rectangle : QRectF) (matrix : QMatrix) (invertColorsFlag : Bool)
    (precompiledPage : PDFPrecompiledPage) (pageIndex : Nat)
    (h : pageIndex ≥ catalog.pageCount ∨ catalog.getPage pageIndex = none) :
    PDFRenderer.render catalog processor rectangle pageIndex =
        ([pageDoesNotExist pageIndex], none) ∧
      PDFRenderer.renderWithMatrix catalog processor matrix pageIndex =
        ([pageDoesNotExist pageIndex], none) ∧
      PDFRenderer.compile catalog processor invertColorsFlag precompiledPage pageIndex =
        { precompiledPage with compilingTimeNS := 0, errors := [pageDoesNotExist pageIndex] } ∧
      (pageDoesNotExist pageIndex).type = RenderErrorType.Error ∧
      (pageIndex + 1 < 2 ^ 64 →
        (pageDoesNotExist pageIndex).message =
          "Page ".toList ++ number ((pageIndex : Int) + 1) ++ " doesn\x27t exist.".toList) := by
  have hc := invalid_page_condition catalog pageIndex h
  refine ⟨?_, ?_, ?_, rfl, fun hlt => ?_⟩
  · unfold PDFRenderer.render
    rw [if_pos hc]
  · unfold PDFRenderer.renderWithMatrix
    rw [if_pos hc]
  · unfold PDFRenderer.compile
    rw [if_pos hc]
    rfl
  · unfold pageDoesNotExist
    rw [Nat.mod_eq_of_lt hlt]
    simp

/-- C22 (witness): the page index 3 of a document of three pages. -/
theorem invalid_page_index_witness :
    PDFRenderer.render exampleCatalog exampleProcessor ⟨0, 0, 30, 50⟩ 3 =
        ([pageDoesNotExist 3], none) ∧
      PDFRenderer.renderWithMatrix exampleCatalog exampleProcessor QMatrix.identity 3 =
        ([pageDoesNotExist 3], none) ∧
      PDFRenderer.compile exampleCatalog exampleProcessor true blankCompiledPage 3 =
        { blankCompiledPage with compilingTimeNS := 0, errors := [pageDoesNotExist 3] } ∧
      (pageDoesNotExist 3).type = RenderErrorType.Error ∧
      (3 + 1 < 2 ^ 64 →
        (pageDoesNotExist 3).message =
          "Page ".toList ++ number (((3 : Nat) : Int) + 1) ++ " doesn\x27t exist.".toList) :=
  invalid_page_index exampleCatalog exampleProcessor ⟨0, 0, 30, 50⟩ QMatrix.identity true
    blankCompiledPage 3 (Or.inl (by decide))

/-- C23: for every integer `n` reported as the ideal thread count,
`getDefaultRasterizerCount` returns `min(16, max(1, n / 2))` with the
truncating division, a value of the range `[1, 16]`. -/
theorem getDefaultRasterizerCount_bounds (n : Int) :
    getDefaultRasterizerCount n = min 16 (max 1 (Int.tdiv n 2)) ∧
      1 ≤ getDefaultRasterizerCount n ∧ getDefaultRasterizerCount n ≤ 16 := by
  unfold getDefaultRasterizerCount qBound
  simp only
  generalize Int.tdiv n 2 = hint
  refine ⟨?_, ?_, ?_⟩
  · simp only [min_def, max_def]
    split_ifs <;> omega
  · exact le_max_left _ _
  · exact max_le (by norm_num) (min_le_left _ _)

/-! ## Claims on the image writer settings -/

/-- C24: after `selectFormat(f)` with a format `f` different from the current
one, compression, quality, gamma, optimized write and progressive scan write
are the default values of `f` (they do not depend on the values before), the
current format is `f`, and the current subtype is the first supported subtype
of `f`, or empty. -/
theorem selectFormat_resets (backend : ImageWriterBackend) (s : PDFImageWriterSettings)
    (format : QString) (h : s.m_currentFormat ≠ format) :
    (s.selectFormat backend format).values = defaultValues format ∧
      (s.selectFormat backend format).m_currentFormat = format ∧
      (s.selectFormat backend format).m_currentSubtype =
        (backend.supportedSubTypes format).headD [] ∧
      (s.selectFormat backend format).m_subtypes = backend.supportedSubTypes format := by
  unfold PDFImageWriterSettings.selectFormat
  rw [if_pos h]
  have hsub : (if (!(backend.supportedSubTypes format).isEmpty) = true then
      (backend.supportedSubTypes format).headD [] else []) =
      (backend.supportedSubTypes format).headD [] := by
    cases backend.supportedSubTypes format <;> rfl
  unfold PDFImageWriterSettings.values defaultValues
  simp only [hsub]
  split_ifs <;> exact ⟨rfl, rfl, rfl, rfl⟩

/-- C24 (witness): from the `png` settings with changed values to `webp` and
to `bmp`. -/
theorem selectFormat_resets_witness :
    (exampleWriterSettings.selectFormat exampleBackend "webp".toList).values =
        (0, 75, 0, false, false) ∧
      (exampleWriterSettings.selectFormat exampleBackend "webp".toList).m_currentSubtype =
        "lossy".toList ∧
      (exampleWriterSettings.selectFormat exampleBackend "bmp".toList).values =
        (0, 0, 0, false, false) ∧
      (exampleWriterSettings.selectFormat exampleBackend "bmp".toList).m_currentSubtype = [] :=
  have h1 := selectFormat_resets exampleBackend exampleWriterSettings "webp".toList (by decide)
  have h2 := selectFormat_resets exampleBackend exampleWriterSettings "bmp".toList (by decide)
  ⟨h1.1.trans (by decide), h1.2.2.1.trans (by decide), h2.1.trans (by decide),
    h2.2.2.1.trans (by decide)⟩

/-- C30: `selectFormat` with the format that is current changes no field, also
after the setters have changed compression, quality, gamma, optimized write,
progressive scan write or the subtype. -/
theorem selectFormat_current (backend : ImageWriterBackend) (s : PDFImageWriterSettings)
    (compression quality : Int) (gamma : ℚ) (optimizedWrite progressiveScanWrite : Bool)
    (subtype : QString) :
    s.selectFormat backend s.getCurrentFormat = s ∧
      ((((((s.setCompression compression).setQuality quality).setGamma gamma).setOptimizedWrite
          optimizedWrite).setProgressiveScanWrite progressiveScanWrite).setCurrentSubtype
          subtype).selectFormat backend s.getCurrentFormat =
        (((((s.setCompression compression).setQuality quality).setGamma gamma).setOptimizedWrite
          optimizedWrite).setProgressiveScanWrite progressiveScanWrite).setCurrentSubtype
          subtype := by
  constructor
  · simp [PDFImageWriterSettings.selectFormat, PDFImageWriterSettings.getCurrentFormat]
  · simp [PDFImageWriterSettings.selectFormat, PDFImageWriterSettings.getCurrentFormat,
      PDFImageWriterSettings.setCompression, PDFImageWriterSettings.setQuality,
      PDFImageWriterSettings.setGamma, PDFImageWriterSettings.setOptimizedWrite,
      PDFImageWriterSettings.setProgressiveScanWrite, PDFImageWriterSettings.setCurrentSubtype]

/-! ## Further claims on the matrix, the rasterizer and the pool -/

/-- C25: for a page box of non-zero width `mw` and height `mh` and a target
rectangle with left `l`, top `t`, width `w` and height `h`, the derived matrix
sends the page point `(x, y)` to `(l + x*w/mw, t + h - y*h/mh)` for `None`, to
`(l + y*h/mh, t + x*w/mw)` for `Rotate90`, to `(l + w - y*h/mh, t + h - x*w/mw)`
for `Rotate270` and to `(l + x*w/mw, t + y*h/mh)` for `Rotate180`; two page boxes
of the same width and height give the same matrix. -/
theorem page_point_to_device_point (box r : QRectF) (x y : ℚ)
    (_hmw : box.width ≠ 0) (_hmh : box.height ≠ 0) :
    (createPagePointToDevicePointMatrix ⟨PageRotation.None, box⟩ r).map (x, y) =
        (r.left + x * r.width / box.width, r.top + r.height - y * r.height / box.height) ∧
      (createPagePointToDevicePointMatrix ⟨PageRotation.Rotate90, box⟩ r).map (x, y) =
        (r.left + y * r.height / box.height, r.top + x * r.width / box.width) ∧
      (createPagePointToDevicePointMatrix ⟨PageRotation.Rotate270, box⟩ r).map (x, y) =
        (r.left + r.width - y * r.height / box.height,
          r.top + r.height - x * r.width / box.width) ∧
      (createPagePointToDevicePointMatrix ⟨PageRotation.Rotate180, box⟩ r).map (x, y) =
        (r.left + x * r.width / box.width, r.top + y * r.height / box.height) ∧
      ∀ (rotation : PageRotation) (box2 : QRectF),
        box2.width = box.width → box2.height = box.height →
        createPagePointToDevicePointMatrix ⟨rotation, box2⟩ r =
          createPagePointToDevicePointMatrix ⟨rotation, box⟩ r := by
  refine ⟨?_, ?_, ?_, ?_, ?_⟩
  · rw [map_rotation_none]
    simp only [QRectF.left, QRectF.top, QRectF.width, QRectF.height, mul_div_assoc]
  · rw [map_rotation_90]
    simp only [QRectF.left, QRectF.top, QRectF.width, QRectF.height, mul_div_assoc]
  · rw [map_rotation_270]
    simp only [QRectF.left, QRectF.top, QRectF.width, QRectF.height, mul_div_assoc]
  · rw [map_rotation_180]
    simp only [QRectF.left, QRectF.top, QRectF.width, QRectF.height, mul_div_assoc]
  · intro rotation box2 hw hh
    simp only [QRectF.width, QRectF.height] at hw hh
    cases rotation <;>
      simp only [createPagePointToDevicePointMatrix, QRectF.width, QRectF.height, hw, hh]

/-- C25 (witness): the page box 3 by 5, the target rectangle at (10, 20) of
width 7 and height 9, and the page point (1, 2). -/
theorem page_point_to_device_point_witness :
    (createPagePointToDevicePointMatrix ⟨PageRotation.Rotate90, ⟨0, 0, 3, 5⟩⟩
        ⟨10, 20, 7, 9⟩).map (1, 2) = (10 + 2 * 9 / 5, 20 + 1 * 7 / 3) :=
  (page_point_to_device_point ⟨0, 0, 3, 5⟩ ⟨10, 20, 7, 9⟩ 1 2
    (by norm_num [QRectF.width]) (by norm_num [QRectF.height])).2.1

/-- C26 (the code at the failing input): a `render` call on the Valid
rasterizer in which `m_context->makeCurrent(m_surface)` fails leaves the state as
it was, with `ValidOpenGL` set and `FailedOpenGL` clear: the `if` has no `else`
branch. The returned image is the one of the software path. -/
theorem render_make_current_failure :
    validRasterizer.render 0 smallPage ⟨0, 0, 3, 5⟩ blankCompiledPage (30, 50) 0 false
        ⟨false, true, true, some ImageFormat.Format_ARGB32, true⟩ =
      some (validRasterizer,
        some ⟨30, 50, ImageFormat.Format_ARGB32_Premultiplied,
          [PaintOp.fill white,
            PaintOp.draw blankCompiledPage ⟨0, 0, 3, 5⟩
              (createPagePointToDevicePointMatrix smallPage ⟨0, 0, 30, 50⟩) 0]⟩) ∧
    validRasterizer.m_features.ValidOpenGL = true ∧
    validRasterizer.m_features.FailedOpenGL = false := by
  refine ⟨?_, rfl, rfl⟩
  simp [PDFRasterizer.render, PDFRasterizer.renderOpenGL, validRasterizer, softwareFallback,
    toPremultiplied, QImage.ofSize, QImage.paint, QImage.format, drawCalls]

/-- C27 (the code at the failing input): for the missing page of index 5
the error event reads `Page 5 not found.`, with the zero-based index, while the
re-emitted compilation error of the page of index 1 reads `Page 2: Shading`,
with the 1-based number. -/
theorem processPage_missing_page_message :
    processPage exampleEnvironment 5 =
      [PoolEvent.progressStep,
        PoolEvent.renderError ⟨RenderErrorType.Error, "Page 5 not found.".toList⟩] ∧
    processPage exampleEnvironment 1 =
      [PoolEvent.renderError ⟨RenderErrorType.NotImplemented, "Page 2: Shading".toList⟩,
        PoolEvent.acquire, PoolEvent.release,
        PoolEvent.processImage 1
          (some ⟨30, 50, ImageFormat.Format_ARGB32_Premultiplied, []⟩),
        PoolEvent.progressStep] := by
  decide

/-! ## Distinct output file names -/

theorem digitChar_value : ∀ d : Nat, d < 10 → (Nat.digitChar d).toNat - 48 = d := by
  decide

theorem foldl_toDigitsCore : ∀ (fuel n : Nat) (ds : List Char), n < fuel →
    List.foldl (fun acc c => 10 * acc + (c.toNat - 48)) 0 (Nat.toDigitsCore 10 fuel n ds) =
      List.foldl (fun acc c => 10 * acc + (c.toNat - 48)) n ds
  | 0, n, ds, h => by omega
  | fuel + 1, n, ds, h => by
    have hd := digitChar_value (n % 10) (Nat.mod_lt n (by norm_num))
    unfold Nat.toDigitsCore
    simp only
    split_ifs with h0
    · have hn : n % 10 = n := by omega
      simp only [List.foldl_cons, Nat.mul_zero, Nat.zero_add]
      rw [hd, hn]
    · have hlt : n / 10 < fuel := by omega
      rw [foldl_toDigitsCore fuel (n / 10) _ hlt]
      simp only [List.foldl_cons, hd]
      congr 1
      omega

theorem digitsValue_toDigits (n : Nat) : digitsValue (Nat.toDigits 10 n) = n := by
  unfold digitsValue Nat.toDigits
  rw [foldl_toDigitsCore (n + 1) n [] (by omega)]
  rfl

theorem digitChar_ne_of (c : Char) (hc : ∀ d : Nat, d < 10 → Nat.digitChar d ≠ c) :
    ∀ (fuel n : Nat) (ds : List Char), c ∉ ds → c ∉ Nat.toDigitsCore 10 fuel n ds
  | 0, _, ds, h => by simpa [Nat.toDigitsCore] using h
  | fuel + 1, n, ds, h => by
    have hd : c ∉ Nat.digitChar (n % 10) :: ds := by
      simp only [List.mem_cons, not_or]
      exact ⟨fun e => hc _ (Nat.mod_lt n (by norm_num)) e.symm, h⟩
    unfold Nat.toDigitsCore
    simp only
    split_ifs
    · exact hd
    · exact digitChar_ne_of c hc fuel _ _ hd

theorem minus_not_mem_toDigits (n : Nat) : '-' ∉ Nat.toDigits 10 n :=
  digitChar_ne_of '-' (by decide) _ _ _ (by simp)

theorem dot_not_mem_number (n : Int) : '.' ∉ number n := by
  cases n with
  | ofNat k =>
    simp only [number, Nat.toDigits]
    exact digitChar_ne_of '.' (by decide) _ _ _ (by simp)
  | negSucc k =>
    simp only [number, Nat.toDigits, List.mem_cons, not_or]
    exact ⟨by decide, digitChar_ne_of '.' (by decide) _ _ _ (by simp)⟩

theorem number_injective (a b : Int) (h : number a = number b) : a = b := by
  cases a with
  | ofNat k =>
    cases b with
    | ofNat l =>
      simp only [number] at h
      have := congrArg digitsValue h
      rw [digitsValue_toDigits, digitsValue_toDigits] at this
      rw [this]
    | negSucc l =>
      simp only [number] at h
      exact absurd (h ▸ List.mem_cons_self '-' _) (minus_not_mem_toDigits k)
  | negSucc k =>
    cases b with
    | ofNat l =>
      simp only [number] at h
      exact absurd (h ▸ List.mem_cons_self '-' _) (minus_not_mem_toDigits l)
    | negSucc l =>
      simp only [number, List.cons.injEq, true_and] at h
      have := congrArg digitsValue h
      rw [digitsValue_toDigits, digitsValue_toDigits] at this
      have hkl : k = l := by omega
      rw [hkl]

theorem count_dot_replace (after : QString) (h : '.' ∉ after) :
    ∀ t : QString, (replace '%' after t).count '.' = t.count '.'
  | [] => rfl
  | c :: cs => by
    have ih := count_dot_replace after h cs
    by_cases hc : c = '%'
    · subst hc
      simp only [replace, if_true, List.count_append, ih, List.count_eq_zero_of_not_mem h,
        zero_add]
      rw [List.count_cons_of_ne (by decide)]
    · simp only [replace, hc, if_false, List.count_cons, ih]

theorem length_replace (after : QString) :
    ∀ t : QString, (replace '%' after t).length + t.count '%' =
      t.length + t.count '%' * after.length
  | [] => by simp [replace]
  | c :: cs => by
    have ih := length_replace after cs
    by_cases hc : c = '%'
    · subst hc
      simp only [replace, if_true, List.length_append, List.count_cons_self, List.length_cons]
      rw [Nat.add_mul]
      omega
    · have hne : cs.count '%' = (c :: cs).count '%' := by
        rw [List.count_cons_of_ne (Ne.symm hc)]
      simp only [replace, hc, if_false, List.length_cons, ← hne]
      omega

theorem replace_injective (a b : QString) (hlen : a.length = b.length) :
    ∀ t : QString, '%' ∈ t → replace '%' a t = replace '%' b t → a = b
  | [], hm, _ => by simp at hm
  | c :: cs, hm, h => by
    by_cases hc : c = '%'
    · simp only [replace, hc, if_true] at h
      exact (List.append_inj h hlen).1
    · simp only [replace, hc, if_false, List.cons.injEq, true_and] at h
      have hm2 : '%' ∈ cs := by
        rcases List.mem_cons.1 hm with e | e
        · exact absurd e.symm hc
        · exact e
      exact replace_injective a b hlen cs hm2 h

theorem replace_number_injective (t : QString) (ht : '%' ∈ t) (a b : Int)
    (h : replace '%' (number a) t = replace '%' (number b) t) : a = b := by
  have h1 := length_replace (number a) t
  have h2 := length_replace (number b) t
  rw [h] at h1
  have hpos : 0 < t.count '%' := List.count_pos_iff.2 ht
  have hmul : t.count '%' * (number a).length = t.count '%' * (number b).length := by omega
  have hlen : (number a).length = (number b).length := Nat.eq_of_mul_eq_mul_left hpos hmul
  exact number_injective a b (replace_injective _ _ hlen t ht h)

theorem replace_append_extension_ne (t : QString) (a b : Int) (format : QString) :
    replace '%' (number a) t ++ '.' :: format ≠ replace '%' (number b) t := by
  intro h
  have hc := congrArg (List.count '.') h
  rw [List.count_append, List.count_cons_self, count_dot_replace _ (dot_not_mem_number a),
    count_dot_replace _ (dot_not_mem_number b)] at hc
  omega

theorem outputName_injective (host : Host) (s : PDFPageImageExportSettings)
    (outputFormat : QString) (i j : Int) (htemplate : '%' ∈ s.m_fileTemplate)
    (h : s.outputName host i outputFormat = s.outputName host j outputFormat) : i = j := by
  unfold PDFPageImageExportSettings.outputName at h
  simp only at h
  split_ifs at h
  · have := replace_number_injective _ htemplate _ _ (List.append_cancel_right h)
    omega
  · exact absurd h (replace_append_extension_ne _ _ _ _)
  · exact absurd h.symm (replace_append_extension_ne _ _ _ _)
  · have := replace_number_injective _ htemplate _ _ h
    omega

/-- C28: for every directory, every file template that contains `%`, every
format and every two distinct page indices the output file names differ, as
compared before the separators are made native (and, on a host whose separator
is `/`, as returned), also when the extension is appended for one index and
not for the other. -/
theorem output_file_names_distinct (host : Host) (s : PDFPageImageExportSettings)
    (outputFormat : QString) (i j : Int) (htemplate : '%' ∈ s.m_fileTemplate) (hij : i ≠ j) :
    s.m_directory ++ '/' :: s.outputName host i outputFormat ≠
        s.m_directory ++ '/' :: s.outputName host j outputFormat ∧
      (host.nativeSeparator = '/' →
        s.getOutputFileName host i outputFormat ≠ s.getOutputFileName host j outputFormat) := by
  have hne : s.m_directory ++ '/' :: s.outputName host i outputFormat ≠
      s.m_directory ++ '/' :: s.outputName host j outputFormat := by
    intro h
    have h2 := List.append_cancel_left h
    simp only [List.cons.injEq, true_and] at h2
    exact hij (outputName_injective host s outputFormat i j htemplate h2)
  refine ⟨hne, fun hhost => ?_⟩
  unfold PDFPageImageExportSettings.getOutputFileName
  simp only [toNativeSeparators_slash host hhost]
  exact hne

/-- C28 (witness): the template `Image.%` and the format `1`, for which the
extension is appended for the page index 4 and not for the page index 0. -/
theorem output_file_names_distinct_witness :
    (templateSettings "Image.%").getOutputFileName unixHost 0 "1".toList =
        "/out/Image.1".toList ∧
      (templateSettings "Image.%").getOutputFileName unixHost 4 "1".toList =
        "/out/Image.5.1".toList ∧
      (templateSettings "Image.%").getOutputFileName unixHost 0 "1".toList ≠
        (templateSettings "Image.%").getOutputFileName unixHost 4 "1".toList :=
  ⟨by decide, by decide,
    (output_file_names_distinct unixHost (templateSettings "Image.%") "1".toList 0 4
      (by decide) (by decide)).2 rfl⟩

/-! ## The page selection as a function of the set of tokens -/

end pdf
